import Mathlib

/-!
# Verification of `fork_skill.py` (brewva skill forker)

Shallow embedding of `src/skills/packs/skill-creator/scripts/fork_skill.py`.

Modelling conventions:
* Filesystem paths are lists of components of an absolute, canonical path
  (`FsPath`).  `Path.resolve()` canonicalisation (symlinks, `.`, `..`) is an
  OS collaborator; in the model every path handled in the path domain is
  already canonical, so `resolve` is the identity.  The *string*-level path
  handling (`normalize_path_input` / `resolve_maybe_absolute`) is modelled
  separately in the string domain, with the OS `resolve()` step an
  uninterpreted parameter.
* Filesystem reads are an oracle record `FS` (directory tests, directory
  listings, recursive `SKILL.md` glob, file reads); `readFile = none` models
  an unreadable file (`read_text` raising `OSError`).
* YAML parsing/serialisation (`yaml.safe_load` / `yaml.safe_dump`) is an
  external collaborator, modelled as oracle functions over a value type
  `YVal`; Python dicts are insertion-ordered association lists.
-/

set_option autoImplicit false

namespace Brewva

/-- A canonical absolute filesystem path, as its list of components. -/
abbrev FsPath := List String

/-- Skill tiers (`TIER_PRIORITY` keys in the source). -/
inductive Tier where
  | base
  | pack
  | project
deriving DecidableEq, Repr

/-- `TIER_PRIORITY = {"base": 1, "pack": 2, "project": 3}`. -/
def TIER_PRIORITY : Tier → Nat
  | .base => 1
  | .pack => 2
  | .project => 3

/-- `TIER_DIRS = {"base": "base", "pack": "packs", "project": "project"}`. -/
def TIER_DIRS : Tier → String
  | .base => "base"
  | .pack => "packs"
  | .project => "project"

/-- Root provenances.  The five ranked ones appear in `SOURCE_PRIORITIES`;
`explicit` is only used for synthetic roots made by `resolve_explicit_source`. -/
inductive Source where
  | module_ancestor
  | exec_ancestor
  | global_root
  | project_root
  | config_root
  | explicit
deriving DecidableEq, Repr

/-- `SOURCE_PRIORITIES` dict.  The source dict has no `"explicit"` key and
`append_discovered_root` is never invoked with it (an access would raise
`KeyError`), so the value returned for `explicit` here is unobservable in the
modelled call sites; we use `0`. -/
def SOURCE_PRIORITIES : Source → Nat
  | .module_ancestor => 1
  | .exec_ancestor => 2
  | .global_root => 3
  | .project_root => 4
  | .config_root => 5
  | .explicit => 0

/-- `@dataclass(frozen=True) class SkillRoot`. -/
structure SkillRoot where
  root_dir : FsPath
  skill_dir : FsPath
  source : Source
deriving DecidableEq, Repr

/-- `@dataclass(frozen=True) class SkillEntry`. -/
structure SkillEntry where
  name : String
  tier : Tier
  file_path : FsPath
  base_dir : FsPath
  root : SkillRoot
deriving DecidableEq, Repr

/-- YAML values as produced by `yaml.safe_load`: strings, insertion-ordered
mappings, and everything else collapsed into an opaque scalar tag. -/
inductive YVal where
  | str : String → YVal
  | dict : List (String × YVal) → YVal
  | other : Nat → YVal

/-- A YAML frontmatter mapping: a Python `Dict[str, Any]`, insertion ordered. -/
abbrev YDict := List (String × YVal)

/-- Python `dict.get(k)`: first binding of the key. -/
def alGet {κ α : Type} [DecidableEq κ] (al : List (κ × α)) (k : κ) : Option α :=
  match al with
  | [] => none
  | (k0, v0) :: rest => if k0 = k then some v0 else alGet rest k

/-- Python `d[k] = v`: update the binding in place if the key is present
(keeping its position), else append a new binding at the end. -/
def alSet {κ α : Type} [DecidableEq κ] (al : List (κ × α)) (k : κ) (v : α) :
    List (κ × α) :=
  match al with
  | [] => [(k, v)]
  | (k0, v0) :: rest =>
      if k0 = k then (k0, v) :: rest else (k0, v0) :: alSet rest k v

/-- Python `d.pop(k, None)`: drop the binding of the key.  A Python dict
holds each key at most once, so removing every binding of the key models it
exactly on the association lists the code builds. -/
def alPop {κ α : Type} [DecidableEq κ] (al : List (κ × α)) (k : κ) :
    List (κ × α) :=
  al.filter (fun kv => !(decide (kv.1 = k)))

/-- Characters stripped by Python `str.strip()` (ASCII whitespace). -/
def isPySpace (c : Char) : Bool :=
  c = ' ' || c = '\t' || c = '\n' || c = '\r' || c = '\x0b' || c = '\x0c'

/-- Python `str.strip()` on a character list. -/
def stripChars (cs : List Char) : List Char :=
  ((cs.dropWhile isPySpace).reverse.dropWhile isPySpace).reverse

/-- Python `str.strip()`. -/
def pyStrip (s : String) : String :=
  String.mk (stripChars s.toList)

/-- Whether `pre` is a leading run of `s` (`str.startswith`). -/
def listIsInit (pre s : List Char) : Bool :=
  match pre, s with
  | [], _ => true
  | _ :: _, [] => false
  | p :: ps, c :: cs => p = c && listIsInit ps cs

/-- Scan for the first occurrence of `"\n---"`; return the text before it and
the text after it.  This realises the lazy group of `FRONTMATTER_RE`
(`^---\n([\s\S]*?)\n---\n?([\s\S]*)$`): the lazy `([\s\S]*?)` stops at the
first `\n---`, and everything after the delimiter always matches. -/
def findCloseDelim (s : List Char) : Option (List Char × List Char) :=
  match s with
  | [] => none
  | c :: cs =>
      if listIsInit [ '\n', '-', '-', '-' ] (c :: cs) then
        some ([], (c :: cs).drop 4)
      else
        match findCloseDelim cs with
        | none => none
        | some (a, b) => some (c :: a, b)

/-- `FRONTMATTER_RE.match(content)`: on success, the YAML text (group 1) and
the body (group 2, after the greedy optional newline `\n?`). -/
def frontmatterMatch (content : List Char) : Option (List Char × List Char) :=
  if listIsInit [ '-', '-', '-', '\n' ] content then
    match findCloseDelim (content.drop 4) with
    | none => none
    | some (g1, rest) =>
        let body := match rest with
          | '\n' :: tail => tail
          | _ => rest
        some (g1, body)
  else
    none

/-- `yaml.safe_load` as an oracle: `none` models a raised `YAMLError`. -/
abbrev YamlLoad := String → Option YVal

/-- `parse_frontmatter(content)`: split off the frontmatter block with
`FRONTMATTER_RE`; a parse error or a non-mapping result collapses to the
empty mapping. -/
def parse_frontmatter (yload : YamlLoad) (content : String) : YDict × String :=
  match frontmatterMatch content.toList with
  | none => ([], content)
  | some (g1, body) =>
      let parsed : YDict :=
        match yload (String.mk g1) with
        | some (.dict d) => d
        | _ => []
      (parsed, String.mk body)

/-- `Path.name`: last component (empty for the filesystem root). -/
def pathName (p : FsPath) : String :=
  (p.getLast?).getD ""

/-- `Path.parent`: drop the last component; the root is its own parent. -/
def pathParent (p : FsPath) : FsPath :=
  p.dropLast

/-- Read-only filesystem oracle covering the operations the script performs.
`rglobSkillMdSorted` is `sorted(dir.rglob("SKILL.md"))` — the recursive glob
and `sorted`'s path ordering are collaborator behaviour, so the oracle yields
the already-sorted result list.  `readFile p = none` models `read_text`
raising. -/
structure FS where
  isDir : FsPath → Bool
  isFile : FsPath → Bool
  pathExists : FsPath → Bool
  iterdir : FsPath → List String
  rglobSkillMdSorted : FsPath → List FsPath
  readFile : FsPath → Option String

/-- `has_tier_directories(path)`. -/
def has_tier_directories (fs : FS) (path : FsPath) : Bool :=
  fs.isDir (path ++ ["base"]) || fs.isDir (path ++ ["packs"]) ||
    fs.isDir (path ++ ["project"])

/-- `resolve_skill_directory(root_dir)` (paths are already canonical, so the
`resolve()` calls are the identity in the model). -/
def resolve_skill_directory (fs : FS) (root_dir : FsPath) : Option FsPath :=
  if has_tier_directories fs root_dir then some root_dir
  else
    let nested := root_dir ++ ["skills"]
    if has_tier_directories fs nested then some nested else none

/-- `MAX_ANCESTOR_DEPTH = 10`. -/
def MAX_ANCESTOR_DEPTH : Nat := 10

/-- The loop body of `collect_bounded_ancestors`, with the remaining
iteration count of `range(MAX_ANCESTOR_DEPTH)` as fuel. -/
def collectAncestorsAux (current : FsPath) (fuel : Nat) : List FsPath :=
  match fuel with
  | 0 => []
  | n + 1 =>
      if pathParent current = current then [current]
      else current :: collectAncestorsAux (pathParent current) n

/-- `collect_bounded_ancestors(start_dir)`: the directory and up to 9 of its
ancestors, leaf first, stopping at the filesystem root. -/
def collect_bounded_ancestors (start_dir : FsPath) : List FsPath :=
  collectAncestorsAux start_dir MAX_ANCESTOR_DEPTH

/-- The mutable pair `(roots, index_by_skill_dir)` threaded through
`append_discovered_root`; the index keys are resolved skill directories. -/
structure DiscoverState where
  roots : List SkillRoot
  index_by_skill_dir : List (FsPath × Nat)

/-- `append_discovered_root(roots, index_by_skill_dir, root_dir, source)`.
The `roots[existing_index]` read is total in Python only because the state
invariant keeps every stored index in range; the model returns the state
unchanged on the unreachable out-of-range case. -/
def append_discovered_root (fs : FS) (st : DiscoverState) (root_dir : FsPath)
    (source : Source) : DiscoverState :=
  match resolve_skill_directory fs root_dir with
  | none => st
  | some skill_dir =>
      match alGet st.index_by_skill_dir skill_dir with
      | some existing_index =>
          match st.roots[existing_index]? with
          | none => st
          | some existing =>
              if SOURCE_PRIORITIES source > SOURCE_PRIORITIES existing.source then
                { st with
                    roots := st.roots.set existing_index
                      { root_dir := root_dir, skill_dir := existing.skill_dir,
                        source := source } }
              else st
      | none =>
          { roots := st.roots ++
              [{ root_dir := root_dir, skill_dir := skill_dir, source := source }],
            index_by_skill_dir :=
              alSet st.index_by_skill_dir skill_dir st.roots.length }

/-- Environment inputs of `discover_skill_roots`: the script's own directory,
the interpreter's directory, and the two brewva roots.
`resolve_global_brewva_root` / `resolve_project_brewva_root` compute the two
roots from environment variables, `cwd` and `home` in the string domain;
the model receives them resolved. -/
structure DiscoverEnv where
  module_dir : FsPath
  exec_dir : FsPath
  global_brewva_root : FsPath
  project_brewva_root : FsPath

/-- `discover_skill_roots(cwd, configured_roots)`. -/
def discover_skill_roots (fs : FS) (env : DiscoverEnv)
    (configured_roots : List FsPath) : List SkillRoot :=
  let st0 : DiscoverState := ⟨[], []⟩
  let st1 := ((collect_bounded_ancestors env.module_dir).reverse).foldl
    (fun st a => append_discovered_root fs st a .module_ancestor) st0
  let st2 := ((collect_bounded_ancestors env.exec_dir).reverse).foldl
    (fun st a => append_discovered_root fs st a .exec_ancestor) st1
  let st3 := append_discovered_root fs st2 env.global_brewva_root .global_root
  let st4 := append_discovered_root fs st3 env.project_brewva_root .project_root
  let st5 := configured_roots.foldl
    (fun st c => append_discovered_root fs st c .config_root) st4
  st5.roots

/-- The declared-or-derived skill name shared by `load_tier_entries` and
`resolve_explicit_source`: the stripped frontmatter `name` when it is a
non-empty string, else the containing directory's name. -/
def declaredOrDirName (yload : YamlLoad) (raw : String) (skill_md : FsPath) :
    String :=
  match alGet (parse_frontmatter yload raw).1 "name" with
  | some (.str s) =>
      let t := pyStrip s
      if t = "" then pathName (pathParent skill_md) else t
  | _ => pathName (pathParent skill_md)

/-- `load_tier_entries(tier_dir, tier, root)`: scan the sorted recursive glob
for `SKILL.md`; unreadable files are skipped. -/
def load_tier_entries (fs : FS) (yload : YamlLoad) (tier_dir : FsPath)
    (tier : Tier) (root : SkillRoot) : List SkillEntry :=
  if fs.isDir tier_dir then
    (fs.rglobSkillMdSorted tier_dir).filterMap (fun skill_md =>
      match fs.readFile skill_md with
      | none => none
      | some raw =>
          some { name := declaredOrDirName yload raw skill_md, tier := tier,
                 file_path := skill_md, base_dir := pathParent skill_md,
                 root := root })
  else []

/-- Insertion sort step for strings. -/
def insertStr (x : String) : List String → List String
  | [] => [x]
  | y :: ys => if x ≤ y then x :: y :: ys else y :: insertStr x ys

/-- Python `sorted` on child names (the pack directories share one parent, so
sorting the full paths orders them exactly by name). -/
def sortStrings : List String → List String
  | [] => []
  | x :: xs => insertStr x (sortStrings xs)

/-- The `(loaded, all_entries)` accumulator of `load_registry`. -/
structure RegState where
  loaded : List (String × SkillEntry)
  all_entries : List SkillEntry

/-- The body of `load_registry`'s `for entry in tier_entries` loop: append to
`all_entries`, then install the entry when the name is new or its tier
priority is greater than or equal to the incumbent's. -/
def registryInsert (st : RegState) (entry : SkillEntry) : RegState :=
  let all := st.all_entries ++ [entry]
  match alGet st.loaded entry.name with
  | none => ⟨alSet st.loaded entry.name entry, all⟩
  | some existing =>
      if TIER_PRIORITY entry.tier ≥ TIER_PRIORITY existing.tier then
        ⟨alSet st.loaded entry.name entry, all⟩
      else ⟨st.loaded, all⟩

/-- The per-root `tier_entries` list built inside `load_registry`: base tier,
then pack subdirectories in sorted order (filtered by the active-pack set
unless the root's source is `project_root` or `config_root`), then the
project tier. -/
def root_tier_entries (fs : FS) (yload : YamlLoad) (active_packs : List String)
    (root : SkillRoot) : List SkillEntry :=
  let baseEntries := load_tier_entries fs yload (root.skill_dir ++ ["base"]) .base root
  let packs_dir := root.skill_dir ++ ["packs"]
  let include_all_packs := root.source = .project_root ∨ root.source = .config_root
  let packEntries :=
    if fs.isDir packs_dir then
      (sortStrings (fs.iterdir packs_dir)).foldl (fun acc name =>
        if ¬ fs.isDir (packs_dir ++ [name]) then acc
        else if ¬ include_all_packs ∧ name ∉ active_packs then acc
        else acc ++ load_tier_entries fs yload (packs_dir ++ [name]) .pack root) []
    else []
  let projectEntries :=
    load_tier_entries fs yload (root.skill_dir ++ ["project"]) .project root
  baseEntries ++ packEntries ++ projectEntries

/-- `load_registry(roots, active_packs)`: merge every root's tier entries in
discovery order into the effective mapping, keeping the flat entry list. -/
def load_registry (fs : FS) (yload : YamlLoad) (roots : List SkillRoot)
    (active_packs : List String) :
    (List (String × SkillEntry)) × List SkillEntry :=
  let final := roots.foldl
    (fun st root => (root_tier_entries fs yload active_packs root).foldl registryInsert st)
    ⟨[], []⟩
  (final.loaded, final.all_entries)

/-- `str(path)` for an absolute path. -/
def pathStr (p : FsPath) : String :=
  "/" ++ String.intercalate "/" p

/-- Exceptions the modelled code can raise: `RuntimeError(msg)`, or an OS
error from reading a file. -/
inductive PyExn where
  | runtimeError : String → PyExn
  | ioError : FsPath → PyExn
deriving DecidableEq, Repr

/-- `PurePosixPath.is_absolute()` of the string form: a leading slash. -/
def strIsAbsolute (s : String) : Bool :=
  match s.toList with
  | [] => false
  | c :: _ => c = '/'

/-- `str.startswith` via the character lists. -/
def strHasInit (pre s : String) : Bool :=
  listIsInit pre.toList s.toList

/-- `str(Path(base) / child)` for component-clean strings: an absolute right
operand replaces the left one, an empty right operand is a no-op (Python
parses it to zero components), otherwise the components concatenate. -/
def pyJoin (base child : String) : String :=
  if strIsAbsolute child then child
  else if child = "" then base
  else base ++ "/" ++ child

/-- `normalize_path_input(path_text)`; `home_dir` is `str(Path.home())`. -/
def normalize_path_input (home_dir : String) (path_text : String) : String :=
  let trimmed := pyStrip path_text
  if trimmed = "" then trimmed
  else if trimmed = "~" then home_dir
  else if strHasInit "~/" trimmed then pyJoin home_dir (trimmed.drop 2)
  else trimmed

/-- `resolve_maybe_absolute(path_text, base_dir)` in the string domain;
`resolveFn` is the OS `Path.resolve()` canonicalisation. -/
def resolve_maybe_absolute (home_dir : String) (resolveFn : String → String)
    (path_text : String) (base_dir : String) : String :=
  let normalized := normalize_path_input home_dir path_text
  if strIsAbsolute normalized then resolveFn normalized
  else resolveFn (pyJoin base_dir normalized)

/-- `resolve_explicit_source(skill_name, source_path, cwd)`; `candidate` is
the already-resolved source path (`resolve_maybe_absolute` is modelled in the
string domain above).  A failed `read_text` raises an OS error, which is not
a `RuntimeError`. -/
def resolve_explicit_source (fs : FS) (yload : YamlLoad) (skill_name : String)
    (candidate : FsPath) : Except PyExn SkillEntry :=
  let skill_md := if fs.isDir candidate then candidate ++ ["SKILL.md"] else candidate
  if ¬ fs.isFile skill_md then
    .error (.runtimeError
      ("Source path does not contain SKILL.md: " ++ pathStr candidate))
  else if pathName skill_md ≠ "SKILL.md" then
    .error (.runtimeError
      ("Source path must point to SKILL.md or its directory: " ++ pathStr candidate))
  else
    let parent_tier := pathName (pathParent (pathParent skill_md))
    let tier : Tier :=
      if parent_tier = "base" then .base
      else if parent_tier = "packs" then .pack
      else if parent_tier = "project" then .project
      else .pack
    match fs.readFile skill_md with
    | none => .error (.ioError skill_md)
    | some raw =>
        let resolved_name := declaredOrDirName yload raw skill_md
        if resolved_name ≠ skill_name then
          .error (.runtimeError
            ("Requested skill '" ++ skill_name ++ "' but source declares '" ++
              resolved_name ++ "' (" ++ pathStr skill_md ++ ")"))
        else
          .ok { name := resolved_name, tier := tier, file_path := skill_md,
                base_dir := pathParent skill_md,
                root := { root_dir := pathParent (pathParent skill_md),
                          skill_dir := pathParent (pathParent skill_md),
                          source := .explicit } }

/-- `resolve_destination_skill_root(path_arg, cwd)`; an explicit `path_arg`
arrives already resolved. -/
def resolve_destination_skill_root (fs : FS) (env : DiscoverEnv)
    (path_arg : Option FsPath) : FsPath × String :=
  match path_arg with
  | none =>
      if fs.isDir env.project_brewva_root then
        (env.project_brewva_root ++ ["skills"], "project_default")
      else
        (env.global_brewva_root ++ ["skills"], "global_default")
  | some explicitPath =>
      match resolve_skill_directory fs explicitPath with
      | some resolved => (resolved, "explicit_existing")
      | none =>
          if pathName explicitPath = ".brewva" then
            (explicitPath ++ ["skills"], "explicit_brewva_root")
          else if pathName explicitPath = "skills" then
            (explicitPath, "explicit_skills_root")
          else
            (explicitPath ++ ["skills"], "explicit_generic")

/-- The string form of a tier, as stored in fork metadata. -/
def tierStr : Tier → String
  | .base => "base"
  | .pack => "pack"
  | .project => "project"

/-- The string form of a provenance, as stored in fork metadata. -/
def sourceStr : Source → String
  | .module_ancestor => "module_ancestor"
  | .exec_ancestor => "exec_ancestor"
  | .global_root => "global_root"
  | .project_root => "project_root"
  | .config_root => "config_root"
  | .explicit => "explicit"

/-- YAML collaborator: `yaml.safe_load` and
`yaml.safe_dump(..., sort_keys=False, allow_unicode=False)`. -/
structure YamlEnv where
  load : YamlLoad
  dump : YDict → String

/-- The `metadata["fork"]` record written by `inject_fork_metadata`;
`forked_at` is the ISO UTC timestamp, `forked_by` is `os.environ.get("USER", "")`. -/
def forkRecord (source_entry : SkillEntry) (forked_at forked_by : String) : YDict :=
  [("source_name", .str source_entry.name),
   ("source_tier", .str (tierStr source_entry.tier)),
   ("source_file", .str (pathStr source_entry.file_path)),
   ("source_root", .str (pathStr source_entry.root.skill_dir)),
   ("source_origin", .str (sourceStr source_entry.root.source)),
   ("forked_at", .str forked_at),
   ("forked_by", .str forked_by),
   ("tool", .str "skill-creator/scripts/fork_skill.py")]

/-- The frontmatter after `inject_fork_metadata` merges the `fork` record
into the `metadata` sub-mapping (a non-mapping `metadata` value is replaced
by a fresh mapping). -/
def injectedFrontmatter (frontmatter : YDict) (source_entry : SkillEntry)
    (forked_at forked_by : String) : YDict :=
  let metadata : YDict :=
    match alGet frontmatter "metadata" with
    | some (.dict m) => m
    | _ => []
  alSet frontmatter "metadata"
    (.dict (alSet metadata "fork"
      (.dict (forkRecord source_entry forked_at forked_by))))

/-- `inject_fork_metadata(destination_skill_md, source_entry)` on the file's
text: returns the rewritten content, or the `RuntimeError` message when the
destination has no (non-empty mapping) frontmatter. -/
def inject_fork_metadata (Y : YamlEnv) (forked_at forked_by : String)
    (destination_skill_md : FsPath) (raw : String) (source_entry : SkillEntry) :
    Except String String :=
  let parsedPair := parse_frontmatter Y.load raw
  let frontmatter := parsedPair.1
  let body := parsedPair.2
  if frontmatter.isEmpty then
    .error ("Missing frontmatter in destination SKILL.md: " ++
      pathStr destination_skill_md)
  else
    let frontmatter1 := injectedFrontmatter frontmatter source_entry forked_at forked_by
    let yaml_text := pyStrip (Y.dump frontmatter1)
    .ok ("---\n" ++ yaml_text ++ "\n---\n" ++ body)

/-- The `quick_validate.validate_skill` collaborator: `available = false`
models the failed import (`validate_skill is None`); a `.error` result models
an exception thrown while it runs. -/
structure ValidatorEnv where
  available : Bool
  run : FsPath → Except String (Bool × String)

/-- `run_validation(skill_dir)`. -/
def run_validation (V : ValidatorEnv) (skill_dir : FsPath) : Bool × String :=
  if ¬ V.available then (true, "quick_validate unavailable; skipped")
  else
    match V.run skill_dir with
    | .ok okMsg => (okMsg.1, okMsg.2)
    | .error e => (false, "validator execution failed: " ++ e)

/-- Command-line arguments after `argparse`, with the two path arguments
already resolved to the path domain. -/
structure Args where
  skill_name : String
  source_path : Option FsPath
  target_path : Option FsPath
  tier : Option Tier
  force : Bool
  dry_run : Bool
  no_metadata : Bool
  allow_inactive : Bool

/-- Filesystem writes `main` can perform, in program order. -/
inductive Effect where
  | mkStagingDir (p : FsPath)
  | copyTree (src dst : FsPath)
  | removeTree (p : FsPath)
  | makeDirs (p : FsPath)
  | removeTreeBestEffort (p : FsPath)
  | writeFile (p : FsPath) (content : String)
deriving DecidableEq, Repr

/-- The terminal console outcome `main` reports before returning. -/
inductive Outcome where
  | emptySkillName
  | sourceLookupFailed (msg : String)
  | destinationExists
  | dryRunComplete
  | copyFailed (msg : String)
  | destMdMissing
  | injectFailed (msg : String)
  | validationFailed (msg : String)
  | activeConfirmed
  | inactiveFatal
  | inactiveAllowed
deriving DecidableEq, Repr

/-- How one invocation of `main` ends: a return code with its reported
outcome and the write effects performed, or an exception that no handler in
`main` catches. -/
inductive MainResult where
  | normal (exit : Int) (outcome : Outcome) (effects : List Effect)
  | uncaught (err : PyExn) (effects : List Effect)
deriving DecidableEq, Repr

/-- One invocation's collaborator oracles: the pre-fork filesystem `fs`, the
filesystem `fsPost` as re-read by the post-fork verification, the YAML and
validator collaborators, the Settings Loader results (`packs`,
`configured_roots`, `disabled` — the JSON settings merge is out of the
claims' scope and arrives resolved), and the outcomes of the raw I/O steps:
`staging_dir` is the `tempfile.mkdtemp` result, `stage_copy_ok` the staging
`shutil.copytree`, `copy_step` the `rmtree`/`mkdir`/`copytree` try-block
(`.error` = some operation in it raised; a failing block may have performed
a prefix of its writes, which the model does not log), `dest_md_exists` the
post-copy existence test, and `dest_md_content` the destination `SKILL.md`
as read back by `inject_fork_metadata` (`none` = the read raised). -/
structure World where
  args : Args
  env : DiscoverEnv
  fs : FS
  fsPost : FS
  Y : YamlEnv
  V : ValidatorEnv
  packs : List String
  configured_roots : List FsPath
  disabled : List String
  staging_dir : FsPath
  stage_copy_ok : Bool
  copy_step : Except String Unit
  dest_md_exists : Bool
  dest_md_content : Option String
  forked_at : String
  forked_by : String

/-- The verification tail of `main` (lines 577-616): fresh discovery and
registry build on the post-fork filesystem, removal of the disabled names,
lookup of the forked name, and the active/inactive outcome. -/
def forkVerifyTail (w : World) (skill_name : String)
    (destination_skill_dir : FsPath) (effects : List Effect) : MainResult :=
  let refreshed_roots := discover_skill_roots w.fsPost w.env w.configured_roots
  let refreshed_loaded :=
    (load_registry w.fsPost w.Y.load refreshed_roots w.packs).1
  let after_pop := w.disabled.foldl alPop refreshed_loaded
  let effective := alGet after_pop skill_name
  let active : Bool :=
    match effective with
    | some e => e.base_dir = destination_skill_dir
    | none => false
  if active then .normal 0 .activeConfirmed effects
  else if ¬ w.args.allow_inactive then .normal 2 .inactiveFatal effects
  else .normal 0 .inactiveAllowed effects

/-- The materialisation tail of `main` (lines 537-575): staging guard, copy
try-block, staging cleanup, post-copy `SKILL.md` check, metadata injection
and validation, then `forkVerifyTail`.  The staging copy (and `mkdtemp`)
sits outside every `try`, so its failure is an uncaught exception. -/
def forkCopyTail (w : World) (skill_name : String) (source_entry : SkillEntry)
    (destination_skill_dir : FsPath) : MainResult :=
  let source_dir0 := source_entry.base_dir
  let staging := w.args.force ∧ source_dir0 = destination_skill_dir
  let stagedSource := w.staging_dir ++ ["source"]
  let stageEffects : List Effect :=
    if staging then [.mkStagingDir w.staging_dir] else []
  if staging ∧ ¬ w.stage_copy_ok then
    .uncaught (.ioError stagedSource) stageEffects
  else
    let stageEffects :=
      stageEffects ++ (if staging then [.copyTree source_dir0 stagedSource] else [])
    let source_dir_for_copy := if staging then stagedSource else source_dir0
    let cleanup : List Effect :=
      if staging then [.removeTreeBestEffort w.staging_dir] else []
    match w.copy_step with
    | .error msg =>
        .normal 1 (.copyFailed msg) (stageEffects ++ cleanup)
    | .ok _ =>
        let copyEffects :=
          (if w.fs.pathExists destination_skill_dir ∧ w.args.force then
            [Effect.removeTree destination_skill_dir] else []) ++
          [.makeDirs (pathParent destination_skill_dir),
           .copyTree source_dir_for_copy destination_skill_dir]
        let effects := stageEffects ++ copyEffects ++ cleanup
        let destination_skill_md := destination_skill_dir ++ ["SKILL.md"]
        if ¬ w.dest_md_exists then
          .normal 1 .destMdMissing effects
        else
          let afterInject : Except String (List Effect) :=
            if w.args.no_metadata then .ok effects
            else
              match w.dest_md_content with
              | none => .error "read of destination SKILL.md failed"
              | some raw =>
                  match inject_fork_metadata w.Y w.forked_at w.forked_by
                      destination_skill_md raw source_entry with
                  | .error msg => .error msg
                  | .ok newContent =>
                      .ok (effects ++ [.writeFile destination_skill_md newContent])
          match afterInject with
          | .error msg => .normal 1 (.injectFailed msg) effects
          | .ok effects1 =>
              let validPair := run_validation w.V destination_skill_dir
              if ¬ validPair.1 then
                .normal 1 (.validationFailed validPair.2) effects1
              else
                forkVerifyTail w skill_name destination_skill_dir effects1

/-- The source-resolution step of `main` (lines 497-511): explicit path when
`--from` was given, else the effective-registry lookup. -/
def mainSourceRes (w : World) (skill_name : String) : Except PyExn SkillEntry :=
  match w.args.source_path with
  | some p => resolve_explicit_source w.fs w.Y.load skill_name p
  | none =>
      let roots := discover_skill_roots w.fs w.env w.configured_roots
      match alGet (load_registry w.fs w.Y.load roots w.packs).1 skill_name with
      | none => .error (.runtimeError
          ("Skill '" ++ skill_name ++ "' not found in resolved registry roots."))
      | some entry => .ok entry

/-- The resolved destination skill directory of `main` (lines 513-516):
`<destination root>/<tier dir>/<name>`. -/
def mainDestinationDir (w : World) (skill_name : String)
    (source_entry : SkillEntry) : FsPath :=
  (resolve_destination_skill_root w.fs w.env w.args.target_path).1 ++
    [TIER_DIRS (w.args.tier.getD source_entry.tier), skill_name]

/-- `main()` (lines 462-616), over the collaborator oracles of `World`. -/
def fork_main (w : World) : MainResult :=
  let skill_name := pyStrip w.args.skill_name
  if skill_name = "" then .normal 1 .emptySkillName []
  else
    match mainSourceRes w skill_name with
    | .error (.runtimeError msg) => .normal 1 (.sourceLookupFailed msg) []
    | .error e => .uncaught e []
    | .ok source_entry =>
        let destination_skill_dir := mainDestinationDir w skill_name source_entry
        if w.fs.pathExists destination_skill_dir ∧ ¬ w.args.force then
          .normal 1 .destinationExists []
        else if w.args.dry_run then
          .normal 0 .dryRunComplete []
        else
          forkCopyTail w skill_name source_entry destination_skill_dir

/-! ## Association-list lemmas -/

theorem alGet_alSet_self {κ α : Type} [DecidableEq κ] (al : List (κ × α))
    (k : κ) (v : α) : alGet (alSet al k v) k = some v := by
  induction al with
  | nil => simp [alSet, alGet]
  | cons kv rest ih =>
      obtain ⟨k0, v0⟩ := kv
      by_cases h : k0 = k <;> simp [alSet, alGet, h, ih]

theorem alGet_alSet_ne {κ α : Type} [DecidableEq κ] (al : List (κ × α))
    (k k2 : κ) (v : α) (h : k2 ≠ k) :
    alGet (alSet al k v) k2 = alGet al k2 := by
  induction al with
  | nil => simp [alSet, alGet, Ne.symm h]
  | cons kv rest ih =>
      obtain ⟨k0, v0⟩ := kv
      by_cases h0 : k0 = k
      · subst h0
        simp [alSet, alGet, Ne.symm h]
      · simp [alSet, alGet, h0, ih]

theorem alGet_alPop_self {κ α : Type} [DecidableEq κ] (al : List (κ × α))
    (k : κ) : alGet (alPop al k) k = none := by
  induction al with
  | nil => simp [alPop, alGet]
  | cons kv rest ih =>
      obtain ⟨k0, v0⟩ := kv
      by_cases h : k0 = k <;> simp_all [alPop, alGet, h]

theorem alGet_alPop_ne {κ α : Type} [DecidableEq κ] (al : List (κ × α))
    (k k2 : κ) (h : k2 ≠ k) : alGet (alPop al k) k2 = alGet al k2 := by
  induction al with
  | nil => simp [alPop, alGet]
  | cons kv rest ih =>
      obtain ⟨k0, v0⟩ := kv
      by_cases h0 : k0 = k
      · subst h0
        simp_all [alPop, alGet, Ne.symm h]
      · by_cases h2 : k0 = k2 <;> simp_all [alPop, alGet]

theorem alGet_alPop_of_none {κ α : Type} [DecidableEq κ] (al : List (κ × α))
    (k k2 : κ) (h : alGet al k2 = none) : alGet (alPop al k) k2 = none := by
  by_cases hk : k2 = k
  · subst hk; exact alGet_alPop_self al k2
  · rw [alGet_alPop_ne al k k2 hk]; exact h

theorem alGet_foldl_alPop_of_none {κ α : Type} [DecidableEq κ]
    (ns : List κ) (al : List (κ × α)) (k2 : κ) (h : alGet al k2 = none) :
    alGet (ns.foldl alPop al) k2 = none := by
  induction ns generalizing al with
  | nil => exact h
  | cons n rest ih => exact ih (alPop al n) (alGet_alPop_of_none al n k2 h)

theorem alGet_foldl_alPop_mem {κ α : Type} [DecidableEq κ]
    (ns : List κ) (al : List (κ × α)) (k2 : κ) (h : k2 ∈ ns) :
    alGet (ns.foldl alPop al) k2 = none := by
  induction ns generalizing al with
  | nil => cases h
  | cons n rest ih =>
      by_cases hk : k2 = n
      · subst hk
        exact alGet_foldl_alPop_of_none rest (alPop al k2) k2
          (alGet_alPop_self al k2)
      · cases List.mem_cons.mp h with
        | inl hh => exact absurd hh hk
        | inr hh => exact ih (alPop al n) hh

theorem alGet_foldl_alPop_notMem {κ α : Type} [DecidableEq κ]
    (ns : List κ) (al : List (κ × α)) (k2 : κ) (h : k2 ∉ ns) :
    alGet (ns.foldl alPop al) k2 = alGet al k2 := by
  induction ns generalizing al with
  | nil => rfl
  | cons n rest ih =>
      have h1 : k2 ≠ n := fun hh => h (hh ▸ List.mem_cons_self n rest)
      have h2 : k2 ∉ rest := fun hh => h (List.mem_cons_of_mem n hh)
      calc alGet ((n :: rest).foldl alPop al) k2
          = alGet (rest.foldl alPop (alPop al n)) k2 := rfl
        _ = alGet (alPop al n) k2 := ih (alPop al n) h2
        _ = alGet al k2 := alGet_alPop_ne al n k2 h1

theorem string_mk_toList (s : String) : String.mk s.toList = s := rfl

/-! ## String-path lemmas (Path Normalizer) -/

theorem str_toList_append (a b : String) :
    (a ++ b).toList = a.toList ++ b.toList :=
  String.data_append a b

theorem strIsAbsolute_append (a b : String) (h : strIsAbsolute a = true) :
    strIsAbsolute (a ++ b) = true := by
  unfold strIsAbsolute at h ⊢
  rw [str_toList_append]
  cases hc : a.toList with
  | nil => rw [hc] at h; simp at h
  | cons c cs => rw [hc] at h; simp_all

theorem strIsAbsolute_pyJoin (a b : String) (h : strIsAbsolute a = true) :
    strIsAbsolute (pyJoin a b) = true := by
  unfold pyJoin
  split
  · assumption
  · split
    · exact h
    · exact strIsAbsolute_append _ _ (strIsAbsolute_append _ _ h)

theorem strHasInit_tilde_ne_empty (t : String)
    (h : strHasInit "~/" t = true) : t ≠ "" := by
  intro he
  subst he
  simp [strHasInit, listIsInit] at h

theorem strHasInit_tilde_ne_tilde (t : String)
    (h : strHasInit "~/" t = true) : t ≠ "~" := by
  intro he
  subst he
  simp [strHasInit, listIsInit] at h

/-- C3 counterexample: the Path Normalizer does not return a whitespace-only
input unchanged — `normalize_path_input` on the one-space string returns the
empty string. -/
theorem path_normalizer_whitespace_counterexample :
    normalize_path_input "/home/user" " " = "" ∧ (" " : String) ≠ "" := by
  constructor
  · rfl
  · decide

/-- C3 (amended): the Path Normalizer never errors and behaves as: an input
that strips to the empty string (empty or whitespace-only) is normalised to
the empty string — the stripped input, not the input itself — and then
resolves to the base directory; a bare `~` resolves to the home directory; a
`~/`-prefixed input resolves to the home-joined remainder; any other
relative input resolves relative to the supplied base directory; any other
absolute input is returned canonicalised (`resolveFn`). -/
theorem path_normalizer_cases (home_dir : String) (resolveFn : String → String)
    (s base_dir : String) (hhome : strIsAbsolute home_dir = true) :
    (pyStrip s = "" → normalize_path_input home_dir s = "" ∧
      resolve_maybe_absolute home_dir resolveFn s base_dir = resolveFn base_dir) ∧
    (pyStrip s = "~" →
      resolve_maybe_absolute home_dir resolveFn s base_dir = resolveFn home_dir) ∧
    (strHasInit "~/" (pyStrip s) = true →
      resolve_maybe_absolute home_dir resolveFn s base_dir =
        resolveFn (pyJoin home_dir ((pyStrip s).drop 2))) ∧
    (pyStrip s ≠ "" → pyStrip s ≠ "~" → strHasInit "~/" (pyStrip s) = false →
      strIsAbsolute (pyStrip s) = false →
      resolve_maybe_absolute home_dir resolveFn s base_dir =
        resolveFn (pyJoin base_dir (pyStrip s))) ∧
    (pyStrip s ≠ "" → pyStrip s ≠ "~" → strHasInit "~/" (pyStrip s) = false →
      strIsAbsolute (pyStrip s) = true →
      resolve_maybe_absolute home_dir resolveFn s base_dir =
        resolveFn (pyStrip s)) := by
  refine ⟨?_, ?_, ?_, ?_, ?_⟩
  · intro h
    have h1 : normalize_path_input home_dir s = "" := by
      simp [normalize_path_input, h]
    refine ⟨h1, ?_⟩
    simp [resolve_maybe_absolute, h1, strIsAbsolute, pyJoin]
  · intro h
    have h1 : normalize_path_input home_dir s = home_dir := by
      simp [normalize_path_input, h]
    simp [resolve_maybe_absolute, h1, hhome]
  · intro h
    have h1 : normalize_path_input home_dir s =
        pyJoin home_dir ((pyStrip s).drop 2) := by
      simp [normalize_path_input, h, strHasInit_tilde_ne_empty _ h,
        strHasInit_tilde_ne_tilde _ h]
    simp [resolve_maybe_absolute, h1, strIsAbsolute_pyJoin _ _ hhome]
  · intro h0 h1 h2 h3
    have hn : normalize_path_input home_dir s = pyStrip s := by
      simp [normalize_path_input, h0, h1, h2]
    simp [resolve_maybe_absolute, hn, h3]
  · intro h0 h1 h2 h3
    have hn : normalize_path_input home_dir s = pyStrip s := by
      simp [normalize_path_input, h0, h1, h2]
    simp [resolve_maybe_absolute, hn, h3]

/-- C3 witness: the amended characterisation applied at concrete inputs, a
relative path with surrounding whitespace against base `/w`. -/
theorem path_normalizer_cases_witness :
    resolve_maybe_absolute "/home/u" (fun p => p) "  docs/readme  " "/w" =
      "/w/docs/readme" := by
  have h := path_normalizer_cases "/home/u" (fun p => p) "  docs/readme  " "/w"
    (by decide)
  have h4 := h.2.2.2.1 (by decide) (by decide) (by decide) (by decide)
  rw [h4]
  rfl

/-! ## Concrete worlds used by witnesses -/

/-- A demo validator collaborator: unavailable import. -/
def demoValidator : ValidatorEnv :=
  { available := false, run := fun _ => .ok (true, "") }

/-- Demo filesystem: one explicit source skill at `/r/packs/demo/foo`, and a
destination root `/t/skills` whose `packs/foo` child already exists. -/
def fsC4 : FS :=
  { isDir := fun p => decide (p = ["r", "packs", "demo", "foo"]),
    isFile := fun p => decide (p = ["r", "packs", "demo", "foo", "SKILL.md"]),
    pathExists := fun p => decide (p = ["t", "skills", "packs", "foo"]),
    iterdir := fun _ => [],
    rglobSkillMdSorted := fun _ => [],
    readFile := fun p =>
      if p = ["r", "packs", "demo", "foo", "SKILL.md"] then
        some "---\nname: foo\n---\nbody" else none }

/-- Demo YAML loader covering the headers the demo files hold. -/
def yloadDemo : YamlLoad := fun s =>
  if s = "name: foo" then some (.dict [("name", .str "foo")])
  else if s = "name: bar" then some (.dict [("name", .str "bar")])
  else none

/-- Demo discovery environment with no skill trees along the walks. -/
def envDemo : DiscoverEnv :=
  { module_dir := ["m"], exec_dir := ["e"], global_brewva_root := ["g"],
    project_brewva_root := ["p", ".brewva"] }

/-- World for the destination-exists witness: explicit source `foo`, no
force, destination `/t/skills/packs/foo` already on disk. -/
def worldC4 : World :=
  { args := { skill_name := "foo", source_path := some ["r", "packs", "demo", "foo"],
              target_path := some ["t", "skills"], tier := none, force := false,
              dry_run := false, no_metadata := false, allow_inactive := false },
    env := envDemo, fs := fsC4, fsPost := fsC4,
    Y := { load := yloadDemo, dump := fun _ => "" }, V := demoValidator,
    packs := [], configured_roots := [], disabled := [],
    staging_dir := ["tmp", "stage"], stage_copy_ok := true, copy_step := .ok (),
    dest_md_exists := true, dest_md_content := none,
    forked_at := "2026-01-01T00:00:00Z", forked_by := "u" }

/-- Filesystem for the name-mismatch witness: the source header declares
`bar`. -/
def fsC5 : FS :=
  { isDir := fun p => decide (p = ["r", "packs", "demo", "foo"]),
    isFile := fun p => decide (p = ["r", "packs", "demo", "foo", "SKILL.md"]),
    pathExists := fun _ => false,
    iterdir := fun _ => [],
    rglobSkillMdSorted := fun _ => [],
    readFile := fun p =>
      if p = ["r", "packs", "demo", "foo", "SKILL.md"] then
        some "---\nname: bar\n---\nbody" else none }

/-- World for the name-mismatch witness: requests `foo` from a source whose
header declares `bar`. -/
def worldC5 : World :=
  { args := { skill_name := "foo", source_path := some ["r", "packs", "demo", "foo"],
              target_path := none, tier := none, force := false,
              dry_run := false, no_metadata := false, allow_inactive := false },
    env := envDemo, fs := fsC5, fsPost := fsC5,
    Y := { load := yloadDemo, dump := fun _ => "" }, V := demoValidator,
    packs := [], configured_roots := [], disabled := [],
    staging_dir := ["tmp", "stage"], stage_copy_ok := true, copy_step := .ok (),
    dest_md_exists := true, dest_md_content := none,
    forked_at := "2026-01-01T00:00:00Z", forked_by := "u" }

/-! ## C4: destination-exists guard -/

/-- C4: when the resolved destination skill directory already exists and
`--force` was not requested, `main` stops with the destination-exists error,
exit code 1, having performed no filesystem write. -/
theorem destination_exists_guard (w : World) (source_entry : SkillEntry)
    (hname : pyStrip w.args.skill_name ≠ "")
    (hsrc : mainSourceRes w (pyStrip w.args.skill_name) = .ok source_entry)
    (hforce : w.args.force = false)
    (hex : w.fs.pathExists
      (mainDestinationDir w (pyStrip w.args.skill_name) source_entry) = true) :
    fork_main w = .normal 1 .destinationExists [] := by
  simp only [fork_main]
  rw [if_neg hname, hsrc]
  simp [hex, hforce]

/-- C4 witness: the guard at the concrete world `worldC4`, whose destination
`/t/skills/packs/foo` exists and whose `force` flag is off. -/
theorem destination_exists_guard_witness :
    fork_main worldC4 = .normal 1 .destinationExists [] :=
  destination_exists_guard worldC4
    { name := "foo", tier := .pack,
      file_path := ["r", "packs", "demo", "foo", "SKILL.md"],
      base_dir := ["r", "packs", "demo", "foo"],
      root := { root_dir := ["r", "packs", "demo"],
                skill_dir := ["r", "packs", "demo"], source := .explicit } }
    (by decide) rfl (by decide) (by decide)

/-! ## C5: explicit-source name mismatch -/

/-- C5: when the explicit source's declared (or directory-derived) name
differs from the requested skill name, `resolve_explicit_source` fails with a
`RuntimeError` whose message holds both names, and `main` reports it and
returns 1 with no filesystem write. -/
theorem explicit_source_name_mismatch (w : World) (candidate skill_md : FsPath)
    (raw declared msg : String)
    (hsp : w.args.source_path = some candidate)
    (hname : pyStrip w.args.skill_name ≠ "")
    (hmd : skill_md =
      (if w.fs.isDir candidate then candidate ++ ["SKILL.md"] else candidate))
    (hfile : w.fs.isFile skill_md = true)
    (hbase : pathName skill_md = "SKILL.md")
    (hread : w.fs.readFile skill_md = some raw)
    (hdecl : declared = declaredOrDirName w.Y.load raw skill_md)
    (hne : declared ≠ pyStrip w.args.skill_name)
    (hmsg : msg = "Requested skill '" ++ pyStrip w.args.skill_name ++
      "' but source declares '" ++ declared ++ "' (" ++ pathStr skill_md ++ ")") :
    resolve_explicit_source w.fs w.Y.load (pyStrip w.args.skill_name) candidate =
      .error (.runtimeError msg) ∧
    fork_main w = .normal 1 (.sourceLookupFailed msg) [] ∧
    (∃ a b c, msg = a ++ pyStrip w.args.skill_name ++ b ++ declared ++ c) := by
  have h1 : resolve_explicit_source w.fs w.Y.load (pyStrip w.args.skill_name)
      candidate = .error (.runtimeError msg) := by
    rw [hmsg]
    simp only [resolve_explicit_source, ← hmd]
    rw [hfile]
    simp only [hbase, hread, ← hdecl]
    simp [hne]
  refine ⟨h1, ?_, ?_⟩
  · simp only [fork_main]
    rw [if_neg hname]
    simp only [mainSourceRes, hsp, h1]
  · refine ⟨"Requested skill '", "' but source declares '",
      "' (" ++ pathStr skill_md ++ ")", ?_⟩
    rw [hmsg]
    simp [String.append_assoc]

/-- C5 witness: the mismatch at the concrete world `worldC5` (requested
`foo`, header declares `bar`); the error message holds both names. -/
theorem explicit_source_name_mismatch_witness :
    fork_main worldC5 = .normal 1 (.sourceLookupFailed
      "Requested skill 'foo' but source declares 'bar' (/r/packs/demo/foo/SKILL.md)") [] :=
  (explicit_source_name_mismatch worldC5 ["r", "packs", "demo", "foo"]
    ["r", "packs", "demo", "foo", "SKILL.md"] "---\nname: bar\n---\nbody" "bar"
    "Requested skill 'foo' but source declares 'bar' (/r/packs/demo/foo/SKILL.md)"
    rfl (by decide) (by decide) (by decide) (by decide) (by decide) (by decide)
    (by decide) (by decide)).2.1

/-! ## C10: degenerate frontmatter behaves like a missing header -/

/-- C10: a physically present frontmatter delimiter block whose YAML text
loads to a parse error, an empty mapping, or a non-mapping value is parsed
exactly like a file with no header block at all — the parsed mapping is
empty — and metadata injection then fails with the missing-frontmatter
error. -/
theorem degenerate_frontmatter_like_missing (yload : YamlLoad) (raw : String)
    (g1 body : List Char)
    (hm : frontmatterMatch raw.toList = some (g1, body))
    (hy : yload (String.mk g1) = none ∨
      yload (String.mk g1) = some (.dict []) ∨
      (∃ v, yload (String.mk g1) = some v ∧ ∀ d, v ≠ YVal.dict d)) :
    parse_frontmatter yload raw = ([], String.mk body) ∧
    (∀ Y : YamlEnv, Y.load = yload → ∀ fa fb p se,
      inject_fork_metadata Y fa fb p raw se =
        .error ("Missing frontmatter in destination SKILL.md: " ++ pathStr p)) ∧
    (∀ raw2 : String, frontmatterMatch raw2.toList = none →
      parse_frontmatter yload raw2 = ([], raw2)) := by
  have hp : parse_frontmatter yload raw = ([], String.mk body) := by
    simp only [parse_frontmatter, hm]
    rcases hy with h | h | ⟨v, hv, hnd⟩
    · rw [h]
    · rw [h]
    · rw [hv]
      cases v with
      | str s => rfl
      | dict d => exact absurd rfl (hnd d)
      | other n => rfl
  refine ⟨hp, ?_, ?_⟩
  · intro Y hY fa fb p se
    simp only [inject_fork_metadata, hY, hp]
    rfl
  · intro raw2 h2
    simp only [parse_frontmatter, h2]

/-- A demo source entry reused by witnesses. -/
def entryDemo : SkillEntry :=
  { name := "foo", tier := .pack,
    file_path := ["r", "packs", "demo", "foo", "SKILL.md"],
    base_dir := ["r", "packs", "demo", "foo"],
    root := { root_dir := ["r", "packs", "demo"],
              skill_dir := ["r", "packs", "demo"], source := .explicit } }

/-- A demo YAML loader whose only understood text is a non-mapping scalar. -/
def yloadC10 : YamlLoad := fun s =>
  if s = "key" then some (.other 0) else none

/-- C10 witness: the file `---\nkey\n---\nbody` has a literal delimiter
block, its YAML text loads to a non-mapping, parsing yields the empty
mapping, and injection reports missing frontmatter. -/
theorem degenerate_frontmatter_like_missing_witness :
    parse_frontmatter yloadC10 "---\nkey\n---\nbody" = ([], "body") ∧
    inject_fork_metadata { load := yloadC10, dump := fun _ => "" } "t" "u"
      ["d", "SKILL.md"] "---\nkey\n---\nbody" entryDemo =
      .error "Missing frontmatter in destination SKILL.md: /d/SKILL.md" := by
  have h := degenerate_frontmatter_like_missing yloadC10 "---\nkey\n---\nbody"
    "key".toList "body".toList (by decide)
    (Or.inr (Or.inr ⟨.other 0, rfl, fun d hd => YVal.noConfusion hd⟩))
  exact ⟨h.1, h.2.1 { load := yloadC10, dump := fun _ => "" } rfl "t" "u"
    ["d", "SKILL.md"] entryDemo⟩

/-! ## C2: root-discovery deduplication -/

/-- The discovery-state invariant: `index_by_skill_dir` holds exactly the
positions of the stored roots, keyed by their (already resolved) skill
directories. -/
def DiscoverInv (st : DiscoverState) : Prop :=
  (∀ k i, alGet st.index_by_skill_dir k = some i →
    ∃ r, st.roots[i]? = some r ∧ r.skill_dir = k) ∧
  (∀ i r, st.roots[i]? = some r →
    alGet st.index_by_skill_dir r.skill_dir = some i)

/-- Equation: no skill directory resolves, the registration is skipped. -/
theorem append_eq_skip (fs : FS) (st : DiscoverState) (root_dir : FsPath)
    (source : Source) (hsd : resolve_skill_directory fs root_dir = none) :
    append_discovered_root fs st root_dir source = st := by
  simp only [append_discovered_root, hsd]

/-- Equation: a duplicate skill directory upgrades the stored root exactly
when the new provenance has strictly higher priority, keeping the stored
`skill_dir` either way. -/
theorem append_eq_dup (fs : FS) (st : DiscoverState) (root_dir : FsPath)
    (source : Source) (sd : FsPath) (i : Nat) (existing : SkillRoot)
    (hsd : resolve_skill_directory fs root_dir = some sd)
    (hidx : alGet st.index_by_skill_dir sd = some i)
    (hget : st.roots[i]? = some existing) :
    append_discovered_root fs st root_dir source =
      if SOURCE_PRIORITIES existing.source < SOURCE_PRIORITIES source then
        { roots := st.roots.set i
            { root_dir := root_dir, skill_dir := existing.skill_dir,
              source := source },
          index_by_skill_dir := st.index_by_skill_dir }
      else st := by
  simp only [append_discovered_root, hsd, hidx, hget, gt_iff_lt]

/-- Equation: a fresh skill directory appends a new root and indexes it. -/
theorem append_eq_new (fs : FS) (st : DiscoverState) (root_dir : FsPath)
    (source : Source) (sd : FsPath)
    (hsd : resolve_skill_directory fs root_dir = some sd)
    (hidx : alGet st.index_by_skill_dir sd = none) :
    append_discovered_root fs st root_dir source =
      { roots := st.roots ++
          [{ root_dir := root_dir, skill_dir := sd, source := source }],
        index_by_skill_dir :=
          alSet st.index_by_skill_dir sd st.roots.length } := by
  simp only [append_discovered_root, hsd, hidx]

/-- C2: under the state invariant, `append_discovered_root` preserves it (at
most one Root per distinct resolved skill directory); on a duplicate skill
directory, a strictly higher-priority provenance replaces the stored root's
provenance and `root_dir` while keeping the previously recorded `skill_dir`,
and a lower-or-equal priority registration leaves the state entirely
unchanged. -/
theorem append_discovered_root_dedup (fs : FS) (st : DiscoverState)
    (hinv : DiscoverInv st) :
    (∀ root_dir source,
      DiscoverInv (append_discovered_root fs st root_dir source)) ∧
    (∀ (i j : Nat) (ri rj : SkillRoot),
      st.roots[i]? = some ri → st.roots[j]? = some rj →
      ri.skill_dir = rj.skill_dir → i = j) ∧
    (∀ (root_dir : FsPath) (source : Source) (sd : FsPath) (i : Nat)
      (existing : SkillRoot),
      resolve_skill_directory fs root_dir = some sd →
      alGet st.index_by_skill_dir sd = some i →
      st.roots[i]? = some existing →
      ((SOURCE_PRIORITIES existing.source < SOURCE_PRIORITIES source →
        append_discovered_root fs st root_dir source =
          { roots := st.roots.set i
              { root_dir := root_dir, skill_dir := existing.skill_dir,
                source := source },
            index_by_skill_dir := st.index_by_skill_dir }) ∧
       (SOURCE_PRIORITIES source ≤ SOURCE_PRIORITIES existing.source →
        append_discovered_root fs st root_dir source = st))) := by
  obtain ⟨hfwd, hbwd⟩ := hinv
  refine ⟨?_, ?_, ?_⟩
  · intro root_dir source
    cases hsd : resolve_skill_directory fs root_dir with
    | none =>
        rw [append_eq_skip fs st root_dir source hsd]
        exact ⟨hfwd, hbwd⟩
    | some sd =>
        cases hidx : alGet st.index_by_skill_dir sd with
        | some i =>
            cases hget : st.roots[i]? with
            | none =>
                have : append_discovered_root fs st root_dir source = st := by
                  simp only [append_discovered_root, hsd, hidx, hget]
                rw [this]
                exact ⟨hfwd, hbwd⟩
            | some existing =>
                rw [append_eq_dup fs st root_dir source sd i existing hsd hidx hget]
                by_cases hpri :
                  SOURCE_PRIORITIES existing.source < SOURCE_PRIORITIES source
                · rw [if_pos hpri]
                  have hlen : i < st.roots.length := by
                    by_contra hnot
                    rw [List.getElem?_eq_none (Nat.le_of_not_lt hnot)] at hget
                    cases hget
                  constructor
                  · intro k i2 h2
                    replace h2 : alGet st.index_by_skill_dir k = some i2 := h2
                    obtain ⟨r0, hr0, hk0⟩ := hfwd k i2 h2
                    show ∃ r, (st.roots.set i
                      { root_dir := root_dir, skill_dir := existing.skill_dir,
                        source := source })[i2]? = some r ∧ r.skill_dir = k
                    by_cases hi : i = i2
                    · subst hi
                      rw [hget] at hr0
                      cases hr0
                      exact ⟨_, List.getElem?_set_eq_of_lt _ hlen, hk0⟩
                    · exact ⟨r0, by
                        rw [List.getElem?_set_ne hi]
                        exact hr0, hk0⟩
                  · intro i2 r h2
                    replace h2 : (st.roots.set i
                      { root_dir := root_dir, skill_dir := existing.skill_dir,
                        source := source })[i2]? = some r := h2
                    show alGet st.index_by_skill_dir r.skill_dir = some i2
                    by_cases hi : i = i2
                    · subst hi
                      rw [List.getElem?_set_eq_of_lt _ hlen] at h2
                      cases h2
                      exact hbwd i existing hget
                    · rw [List.getElem?_set_ne hi] at h2
                      exact hbwd i2 r h2
                · rw [if_neg hpri]
                  exact ⟨hfwd, hbwd⟩
        | none =>
            rw [append_eq_new fs st root_dir source sd hsd hidx]
            constructor
            · intro k i2 h2
              replace h2 :
                  alGet (alSet st.index_by_skill_dir sd st.roots.length) k =
                    some i2 := h2
              show ∃ r, (st.roots ++
                [{ root_dir := root_dir, skill_dir := sd,
                   source := source }])[i2]? = some r ∧ r.skill_dir = k
              by_cases hk : k = sd
              · subst hk
                rw [alGet_alSet_self] at h2
                cases h2
                exact ⟨_, List.getElem?_concat_length _ _, rfl⟩
              · rw [alGet_alSet_ne _ _ _ _ hk] at h2
                obtain ⟨r0, hr0, hk0⟩ := hfwd k i2 h2
                have hlen : i2 < st.roots.length := by
                  by_contra hnot
                  rw [List.getElem?_eq_none (Nat.le_of_not_lt hnot)] at hr0
                  cases hr0
                exact ⟨r0, by rw [List.getElem?_append_left hlen]; exact hr0, hk0⟩
            · intro i2 r h2
              replace h2 : (st.roots ++
                  [{ root_dir := root_dir, skill_dir := sd,
                     source := source }])[i2]? = some r := h2
              show alGet (alSet st.index_by_skill_dir sd st.roots.length)
                r.skill_dir = some i2
              by_cases hlen : i2 < st.roots.length
              · rw [List.getElem?_append_left hlen] at h2
                have hb := hbwd i2 r h2
                have hk : r.skill_dir ≠ sd := by
                  intro he
                  rw [he, hidx] at hb
                  cases hb
                rw [alGet_alSet_ne _ _ _ _ hk]
                exact hb
              · have hle : st.roots.length ≤ i2 := Nat.le_of_not_lt hlen
                cases Nat.eq_or_lt_of_le hle with
                | inl heq =>
                    rw [← heq, List.getElem?_concat_length] at h2
                    cases h2
                    rw [← heq]
                    exact alGet_alSet_self _ _ _
                | inr hgt =>
                    have hnone : (st.roots ++
                        [{ root_dir := root_dir, skill_dir := sd,
                           source := source }])[i2]? = none := by
                      apply List.getElem?_eq_none
                      simpa using hgt
                    rw [hnone] at h2
                    cases h2
  · intro i j ri rj hi hj hsame
    have h1 := hbwd i ri hi
    have h2 := hbwd j rj hj
    rw [hsame, h2] at h1
    cases h1
    rfl
  · intro root_dir source sd i existing hsd hidx hget
    constructor
    · intro hpri
      rw [append_eq_dup fs st root_dir source sd i existing hsd hidx hget,
        if_pos hpri]
    · intro hpri
      rw [append_eq_dup fs st root_dir source sd i existing hsd hidx hget,
        if_neg (Nat.not_lt.mpr hpri)]

/-- Filesystem for the dedup witness: one skill tree at `/a/skills`. -/
def fsC2 : FS :=
  { isDir := fun p => decide (p = ["a", "skills", "base"]),
    isFile := fun _ => false,
    pathExists := fun _ => false,
    iterdir := fun _ => [],
    rglobSkillMdSorted := fun _ => [],
    readFile := fun _ => none }

/-- Discovery state holding one root found by the module-ancestor walk. -/
def stC2 : DiscoverState :=
  { roots := [{ root_dir := ["a"], skill_dir := ["a", "skills"],
                source := .module_ancestor }],
    index_by_skill_dir := [(["a", "skills"], 0)] }

theorem stC2_inv : DiscoverInv stC2 := by
  constructor
  · intro k i h
    simp only [stC2, alGet] at h
    split at h
    · next heq =>
        cases h
        exact ⟨_, rfl, heq⟩
    · cases h
  · intro i r h
    cases i with
    | zero =>
        have h2 : some { root_dir := ["a"], skill_dir := ["a", "skills"], source := Source.module_ancestor } = some r := h
        cases h2
        rfl
    | succ n =>
        simp [stC2] at h

/-- C2 witness: re-registering the duplicate skill directory `/a/skills`
from the higher-priority `global_root` provenance replaces the stored
root's provenance and `root_dir` but keeps its `skill_dir`. -/
theorem append_discovered_root_dedup_witness :
    append_discovered_root fsC2 stC2 ["a"] .global_root =
      { roots := [{ root_dir := ["a"], skill_dir := ["a", "skills"],
                    source := Source.global_root }],
        index_by_skill_dir := [(["a", "skills"], 0)] } :=
  ((append_discovered_root_dedup fsC2 stC2 stC2_inv).2.2 ["a"] .global_root
    ["a", "skills"] 0
    { root_dir := ["a"], skill_dir := ["a", "skills"], source := .module_ancestor }
    rfl rfl rfl).1 (by decide)

/-! ## C6: tier loading and pack filtering -/

/-- The pack-loop fold of `load_registry` collects exactly the entries of
the sorted pack subdirectories passing the activation test. -/
theorem pack_foldl_eq_filter_flatMap (fs : FS) (yload : YamlLoad)
    (active_packs : List String) (root : SkillRoot)
    (l : List String) (acc : List SkillEntry) :
    l.foldl (fun acc2 name =>
        if ¬ fs.isDir (root.skill_dir ++ ["packs"] ++ [name]) then acc2
        else if ¬ (root.source = .project_root ∨ root.source = .config_root) ∧
            name ∉ active_packs then acc2
        else acc2 ++ load_tier_entries fs yload
          (root.skill_dir ++ ["packs"] ++ [name]) .pack root) acc =
      acc ++ (l.filter (fun name =>
          fs.isDir (root.skill_dir ++ ["packs"] ++ [name]) &&
          (decide (root.source = .project_root) ||
           decide (root.source = .config_root) ||
           decide (name ∈ active_packs)))).flatMap
        (fun name => load_tier_entries fs yload
          (root.skill_dir ++ ["packs"] ++ [name]) .pack root) := by
  induction l generalizing acc with
  | nil => simp
  | cons x xs ih =>
      rw [List.foldl_cons]
      by_cases hd : fs.isDir (root.skill_dir ++ ["packs"] ++ [x]) = true
      · by_cases hq : (root.source = .project_root ∨ root.source = .config_root) ∨
            x ∈ active_packs
        · rw [if_neg (not_not_intro hd), if_neg (by tauto)]
          rw [List.filter_cons_of_pos (by simp_all), List.flatMap_cons, ih]
          simp [List.append_assoc]
        · rw [if_neg (not_not_intro hd), if_pos (by tauto)]
          rw [List.filter_cons_of_neg (by simp_all)]
          exact ih acc
      · rw [if_pos hd]
        rw [List.filter_cons_of_neg (by simp_all)]
        exact ih acc

/-- C6: per root the Registry Builder loads the base tier and the project
tier unconditionally, and loads a pack subdirectory's entries if and only if
it is a directory and its name is in the active-pack set or the root's
provenance is `project_root` or `config_root`, iterating the pack
subdirectories in sorted order. -/
theorem tier_loading_characterization (fs : FS) (yload : YamlLoad)
    (active_packs : List String) (root : SkillRoot) :
    root_tier_entries fs yload active_packs root =
      load_tier_entries fs yload (root.skill_dir ++ ["base"]) .base root ++
      (if fs.isDir (root.skill_dir ++ ["packs"]) then
        ((sortStrings (fs.iterdir (root.skill_dir ++ ["packs"]))).filter
          (fun name => fs.isDir (root.skill_dir ++ ["packs"] ++ [name]) &&
            (decide (root.source = .project_root) ||
             decide (root.source = .config_root) ||
             decide (name ∈ active_packs)))).flatMap
          (fun name => load_tier_entries fs yload
            (root.skill_dir ++ ["packs"] ++ [name]) .pack root)
      else []) ++
      load_tier_entries fs yload (root.skill_dir ++ ["project"]) .project root := by
  by_cases hp : fs.isDir (root.skill_dir ++ ["packs"]) = true
  · simp only [root_tier_entries, if_pos hp]
    rw [pack_foldl_eq_filter_flatMap]
    simp
  · simp only [root_tier_entries, if_neg hp]

/-! ## C1: last-write-wins-within-tier-then-highest-tier-wins merge -/

/-- The `loaded` component of `registryInsert`, as a fold step over the
effective mapping alone. -/
def mergeStep (loaded : List (String × SkillEntry)) (entry : SkillEntry) :
    List (String × SkillEntry) :=
  match alGet loaded entry.name with
  | none => alSet loaded entry.name entry
  | some existing =>
      if TIER_PRIORITY entry.tier ≥ TIER_PRIORITY existing.tier then
        alSet loaded entry.name entry
      else loaded

theorem registryInsert_loaded (st : RegState) (e : SkillEntry) :
    (registryInsert st e).loaded = mergeStep st.loaded e := by
  cases h : alGet st.loaded e.name with
  | none => simp only [registryInsert, mergeStep, h]
  | some ex =>
      simp only [registryInsert, mergeStep, h]
      split <;> rfl

theorem registryInsert_all (st : RegState) (e : SkillEntry) :
    (registryInsert st e).all_entries = st.all_entries ++ [e] := by
  cases h : alGet st.loaded e.name with
  | none => simp only [registryInsert, h]
  | some ex =>
      simp only [registryInsert, h]
      split <;> rfl

theorem foldl_registryInsert_loaded (es : List SkillEntry) (st : RegState) :
    (es.foldl registryInsert st).loaded = es.foldl mergeStep st.loaded := by
  induction es generalizing st with
  | nil => rfl
  | cons e rest ih =>
      rw [List.foldl_cons, List.foldl_cons, ih, registryInsert_loaded]

theorem foldl_registryInsert_all (es : List SkillEntry) (st : RegState) :
    (es.foldl registryInsert st).all_entries = st.all_entries ++ es := by
  induction es generalizing st with
  | nil => simp
  | cons e rest ih =>
      rw [List.foldl_cons, ih, registryInsert_all]
      simp

theorem foldl_roots_eq_flatMap (fs : FS) (yload : YamlLoad)
    (active_packs : List String) (roots : List SkillRoot) (st : RegState) :
    roots.foldl (fun st2 root =>
        (root_tier_entries fs yload active_packs root).foldl registryInsert st2) st =
      (roots.flatMap (root_tier_entries fs yload active_packs)).foldl
        registryInsert st := by
  induction roots generalizing st with
  | nil => rfl
  | cons r rs ih =>
      rw [List.foldl_cons, List.flatMap_cons, List.foldl_append, ih]

/-- `load_registry` is the single merge fold over the flat entry list, and
the flat entry list is the concatenation of every root's tier entries in
discovery order. -/
theorem load_registry_eq (fs : FS) (yload : YamlLoad) (roots : List SkillRoot)
    (active_packs : List String) :
    load_registry fs yload roots active_packs =
      ((roots.flatMap (root_tier_entries fs yload active_packs)).foldl mergeStep [],
       roots.flatMap (root_tier_entries fs yload active_packs)) := by
  simp only [load_registry, foldl_roots_eq_flatMap, Prod.mk.injEq]
  constructor
  · rw [foldl_registryInsert_loaded]
  · rw [foldl_registryInsert_all]
    simp

theorem alGet_mergeStep_ne (l : List (String × SkillEntry)) (a : SkillEntry)
    (n : String) (h : a.name ≠ n) : alGet (mergeStep l a) n = alGet l n := by
  cases hF : alGet l a.name with
  | none =>
      simp only [mergeStep, hF]
      exact alGet_alSet_ne _ _ _ _ (Ne.symm h)
  | some ex =>
      simp only [mergeStep, hF]
      split
      · exact alGet_alSet_ne _ _ _ _ (Ne.symm h)
      · rfl

/-- What the claims say about the effective entry for a name: it shares the
name, it is one of the entries with that name, its tier priority is maximal
among them, and among those of that maximal tier priority it is the last one
in iteration order. -/
def EffectiveSpec (es : List SkillEntry) (n : String) (e : SkillEntry) : Prop :=
  e.name = n ∧
  e ∈ es.filter (fun x => decide (x.name = n)) ∧
  (∀ e2 ∈ es.filter (fun x => decide (x.name = n)),
    TIER_PRIORITY e2.tier ≤ TIER_PRIORITY e.tier) ∧
  ((es.filter (fun x => decide (x.name = n))).filter
    (fun x => decide (TIER_PRIORITY x.tier = TIER_PRIORITY e.tier))).getLast? =
      some e

theorem mergeFold_spec (es : List SkillEntry) (n : String) :
    (alGet (es.foldl mergeStep []) n = none →
      es.filter (fun x => decide (x.name = n)) = []) ∧
    (∀ e, alGet (es.foldl mergeStep []) n = some e → EffectiveSpec es n e) := by
  induction es using List.reverseRecOn with
  | nil =>
      constructor
      · intro _; rfl
      · intro e h; cases h
  | append_singleton es a ih =>
      obtain ⟨ihn, ihs⟩ := ih
      have hfold : (es ++ [a]).foldl mergeStep ([] : List (String × SkillEntry)) =
          mergeStep (es.foldl mergeStep []) a := by
        rw [List.foldl_append]
        rfl
      by_cases han : a.name = n
      · subst han
        have hfa : (es ++ [a]).filter (fun x => decide (x.name = a.name)) =
            es.filter (fun x => decide (x.name = a.name)) ++ [a] := by
          rw [List.filter_append]
          simp
        cases hF : alGet (es.foldl mergeStep []) a.name with
        | none =>
            have hemp := ihn hF
            have hres : alGet ((es ++ [a]).foldl mergeStep []) a.name = some a := by
              rw [hfold]
              simp only [mergeStep, hF]
              exact alGet_alSet_self _ _ _
            constructor
            · intro h0
              rw [hres] at h0
              cases h0
            · intro e he
              rw [hres] at he
              cases he
              refine ⟨rfl, ?_, ?_, ?_⟩
              · rw [hfa, hemp]
                simp
              · intro e2 h2
                rw [hfa, hemp] at h2
                simp at h2
                subst h2
                exact le_refl _
              · rw [hfa, hemp]
                simp
        | some ex =>
            obtain ⟨hexn, hexmem, hexmax, hexlast⟩ := ihs ex hF
            by_cases hge : TIER_PRIORITY a.tier ≥ TIER_PRIORITY ex.tier
            · have hres : alGet ((es ++ [a]).foldl mergeStep []) a.name = some a := by
                rw [hfold]
                simp only [mergeStep, hF, if_pos hge]
                exact alGet_alSet_self _ _ _
              constructor
              · intro h0
                rw [hres] at h0
                cases h0
              · intro e he
                rw [hres] at he
                cases he
                refine ⟨rfl, ?_, ?_, ?_⟩
                · rw [hfa]
                  simp
                · intro e2 h2
                  rw [hfa] at h2
                  rcases List.mem_append.mp h2 with h2 | h2
                  · exact le_trans (hexmax e2 h2) hge
                  · simp at h2
                    subst h2
                    exact le_refl _
                · rw [hfa, List.filter_append]
                  have hone : [a].filter (fun x =>
                      decide (TIER_PRIORITY x.tier = TIER_PRIORITY a.tier)) = [a] := by
                    simp
                  rw [hone, List.getLast?_concat]
            · have hlt : TIER_PRIORITY a.tier < TIER_PRIORITY ex.tier :=
                Nat.lt_of_not_le hge
              have hres : alGet ((es ++ [a]).foldl mergeStep []) a.name = some ex := by
                rw [hfold]
                simp only [mergeStep, hF, if_neg hge]
              constructor
              · intro h0
                rw [hres] at h0
                cases h0
              · intro e he
                rw [hres] at he
                cases he
                refine ⟨hexn, ?_, ?_, ?_⟩
                · rw [hfa]
                  exact List.mem_append_left _ hexmem
                · intro e2 h2
                  rw [hfa] at h2
                  rcases List.mem_append.mp h2 with h2 | h2
                  · exact hexmax e2 h2
                  · simp at h2
                    subst h2
                    exact le_of_lt hlt
                · rw [hfa, List.filter_append]
                  have hzero : [a].filter (fun x =>
                      decide (TIER_PRIORITY x.tier = TIER_PRIORITY ex.tier)) = [] := by
                    simp [Nat.ne_of_lt hlt]
                  rw [hzero, List.append_nil]
                  exact hexlast
      · have hres : alGet ((es ++ [a]).foldl mergeStep []) n =
            alGet (es.foldl mergeStep []) n := by
          rw [hfold]
          exact alGet_mergeStep_ne _ _ _ han
        have hfa : (es ++ [a]).filter (fun x => decide (x.name = n)) =
            es.filter (fun x => decide (x.name = n)) := by
          rw [List.filter_append]
          simp [han]
        constructor
        · intro h0
          rw [hres] at h0
          rw [hfa]
          exact ihn h0
        · intro e he
          rw [hres] at he
          obtain ⟨h1, h2, h3, h4⟩ := ihs e he
          refine ⟨h1, ?_, ?_, ?_⟩
          · rw [hfa]
            exact h2
          · rw [hfa]
            exact h3
          · rw [hfa]
            exact h4

/-- C1: the Registry Builder's flat entry list is the concatenation of all
roots' tier entries in discovery order; every effective entry has the
maximal tier priority among the entries sharing its name and is the last of
that maximal tier in iteration order (so a strictly lower tier never
displaces a higher one); and a name with at least one entry always has an
effective entry. -/
theorem registry_effective_entry (fs : FS) (yload : YamlLoad)
    (roots : List SkillRoot) (active_packs : List String) :
    (load_registry fs yload roots active_packs).2 =
      roots.flatMap (root_tier_entries fs yload active_packs) ∧
    (∀ (n : String) (e : SkillEntry),
      alGet (load_registry fs yload roots active_packs).1 n = some e →
      EffectiveSpec (load_registry fs yload roots active_packs).2 n e) ∧
    (∀ (n : String) (e2 : SkillEntry),
      e2 ∈ (load_registry fs yload roots active_packs).2 → e2.name = n →
      ∃ e, alGet (load_registry fs yload roots active_packs).1 n = some e) := by
  rw [load_registry_eq]
  refine ⟨rfl, ?_, ?_⟩
  · intro n e he
    exact (mergeFold_spec _ n).2 e he
  · intro n e2 hmem hname
    cases halg : alGet ((roots.flatMap
        (root_tier_entries fs yload active_packs)).foldl mergeStep []) n with
    | some e => exact ⟨e, rfl⟩
    | none =>
        exfalso
        have hemp := (mergeFold_spec _ n).1 halg
        have hmf : e2 ∈ (roots.flatMap
            (root_tier_entries fs yload active_packs)).filter
              (fun x => decide (x.name = n)) :=
          List.mem_filter.mpr ⟨hmem, by simp [hname]⟩
        rw [hemp] at hmf
        cases hmf

/-- Root for the merge witness. -/
def rootC1 : SkillRoot :=
  { root_dir := ["r"], skill_dir := ["r"], source := .global_root }

/-- Filesystem for the merge witness: one root defining `foo` at base tier
and again at project tier. -/
def fsC1 : FS :=
  { isDir := fun p => decide (p = ["r", "base"] ∨ p = ["r", "project"]),
    isFile := fun _ => false,
    pathExists := fun _ => false,
    iterdir := fun _ => [],
    rglobSkillMdSorted := fun p =>
      if p = ["r", "base"] then [["r", "base", "foo", "SKILL.md"]]
      else if p = ["r", "project"] then [["r", "project", "foo", "SKILL.md"]]
      else [],
    readFile := fun p =>
      if p = ["r", "base", "foo", "SKILL.md"] ∨
          p = ["r", "project", "foo", "SKILL.md"] then
        some "---\nname: foo\n---\nb" else none }

/-- The project-tier entry that should win the merge in `fsC1`. -/
def projEntryC1 : SkillEntry :=
  { name := "foo", tier := .project,
    file_path := ["r", "project", "foo", "SKILL.md"],
    base_dir := ["r", "project", "foo"], root := rootC1 }

/-- C1 witness: with `foo` defined at base and project tier under one root,
the effective entry is the project-tier one, and it satisfies the
highest-tier-then-last-processed specification. -/
theorem registry_effective_entry_witness :
    EffectiveSpec (load_registry fsC1 yloadDemo [rootC1] []).2 "foo" projEntryC1 :=
  (registry_effective_entry fsC1 yloadDemo [rootC1] []).2.1 "foo" projEntryC1 rfl

/-! ## C7: fork metadata round-trip -/

/-- Whether the closing-delimiter pattern `"\n---"` occurs in the text. -/
def containsDelim (s : List Char) : Bool :=
  match s with
  | [] => false
  | c :: rest =>
      listIsInit ['\n', '-', '-', '-'] (c :: rest) || containsDelim rest

/-- The closing-delimiter pattern cannot start strictly inside a text that
is followed by a literal closing delimiter: any match is at the boundary or
wholly inside the text. -/
theorem listIsInit_delim_append : ∀ (s t : List Char),
    listIsInit ['\n', '-', '-', '-']
      (s ++ '\n' :: '-' :: '-' :: '-' :: t) = true →
    s = [] ∨ containsDelim s = true
  | [], _, _ => Or.inl rfl
  | [a], t, h => by simp [listIsInit] at h
  | [a, b], t, h => by simp [listIsInit] at h
  | [a, b, c], t, h => by simp [listIsInit] at h
  | a :: b :: c :: d :: rest, t, h => by
      obtain ⟨h1, h2, h3, h4⟩ :
          ('\n' = a) ∧ ('-' = b) ∧ ('-' = c) ∧ ('-' = d) := by
        simpa [listIsInit] using h
      right
      subst h1
      subst h2
      subst h3
      subst h4
      simp [containsDelim, listIsInit]

/-- Scanning a delimiter-free text followed by a literal closing delimiter
finds exactly the boundary. -/
theorem findCloseDelim_boundary : ∀ (ys zs : List Char),
    containsDelim ys = false →
    findCloseDelim (ys ++ '\n' :: '-' :: '-' :: '-' :: zs) = some (ys, zs)
  | [], zs, _ => by simp [findCloseDelim, listIsInit, List.drop]
  | c :: cs, zs, h => by
      have hsplit : listIsInit ['\n', '-', '-', '-'] (c :: cs) = false ∧
          containsDelim cs = false := by
        have h2 := h
        simp [containsDelim] at h2
        exact h2
      have hni : listIsInit ['\n', '-', '-', '-']
          (c :: (cs ++ '\n' :: '-' :: '-' :: '-' :: zs)) = false := by
        cases hcase : listIsInit ['\n', '-', '-', '-']
            (c :: (cs ++ '\n' :: '-' :: '-' :: '-' :: zs)) with
        | false => rfl
        | true =>
            rcases listIsInit_delim_append (c :: cs) zs
                (by simpa using hcase) with h0 | h0
            · cases h0
            · rw [h0] at h
              cases h
      have ih := findCloseDelim_boundary cs zs hsplit.2
      have hgoal : findCloseDelim ((c :: cs) ++ '\n' :: '-' :: '-' :: '-' :: zs) =
          if listIsInit ['\n', '-', '-', '-']
              (c :: (cs ++ '\n' :: '-' :: '-' :: '-' :: zs)) then
            some ([], (c :: (cs ++ '\n' :: '-' :: '-' :: '-' :: zs)).drop 4)
          else
            match findCloseDelim (cs ++ '\n' :: '-' :: '-' :: '-' :: zs) with
            | none => none
            | some (a, b) => some (c :: a, b) := rfl
      rw [hgoal, if_neg (by simp [hni]), ih]

/-- The rebuilt file `---\n<yt>\n---\n<body>` re-splits exactly into the
YAML text and the body, provided the YAML text holds no closing delimiter. -/
theorem frontmatterMatch_rebuilt (yt body : String)
    (h : containsDelim yt.toList = false) :
    frontmatterMatch ("---\n" ++ yt ++ "\n---\n" ++ body).toList =
      some (yt.toList, body.toList) := by
  have htl : ("---\n" ++ yt ++ "\n---\n" ++ body).toList =
      '-' :: '-' :: '-' :: '\n' ::
        (yt.toList ++ '\n' :: '-' :: '-' :: '-' :: ('\n' :: body.toList)) := by
    simp only [str_toList_append, List.append_assoc]
    rfl
  rw [htl]
  have hfind := findCloseDelim_boundary yt.toList ('\n' :: body.toList) h
  simp only [frontmatterMatch, listIsInit]
  simp only [List.drop, hfind]
  simp

theorem keys_filter_alSet {α : Type} (al : List (String × α)) (k : String)
    (v : α) :
    ((alSet al k v).map Prod.fst).filter (fun s => decide (s ≠ k)) =
      (al.map Prod.fst).filter (fun s => decide (s ≠ k)) := by
  induction al with
  | nil => simp [alSet]
  | cons kv rest ih =>
      obtain ⟨k0, v0⟩ := kv
      by_cases h : k0 = k
      · subst h
        have hs : alSet ((k0, v0) :: rest) k0 v = (k0, v) :: rest := by
          simp [alSet]
        rw [hs, List.map_cons, List.map_cons,
          List.filter_cons_of_neg (by simp)]
      · simp only [alSet, if_neg h, List.map_cons]
        rw [List.filter_cons_of_pos (by simp [h]),
          List.filter_cons_of_pos (by simp [h]), ih]

/-- C7: when the destination header is a non-empty mapping, metadata
injection rewrites the file so that re-parsing recovers the injected
mapping and the byte-identical body; the injected mapping keeps the
original `name` binding, holds `metadata.fork` equal to the exact fork
record (source name, tier, file, root, provenance, timestamp, user, tool),
and agrees with the original mapping on every other key, whose insertion
order is preserved.  The YAML dump/load round-trip and the absence of a
closing delimiter inside the dump are collaborator assumptions. -/
theorem inject_roundtrip (Y : YamlEnv) (forked_at forked_by : String)
    (p : FsPath) (raw : String) (se : SkillEntry) (fm : YDict)
    (body yt : String)
    (hparse : parse_frontmatter Y.load raw = (fm, body))
    (hne : fm.isEmpty = false)
    (hyt : yt = pyStrip (Y.dump (injectedFrontmatter fm se forked_at forked_by)))
    (hclean : containsDelim yt.toList = false)
    (hload : Y.load yt =
      some (.dict (injectedFrontmatter fm se forked_at forked_by))) :
    inject_fork_metadata Y forked_at forked_by p raw se =
      .ok ("---\n" ++ yt ++ "\n---\n" ++ body) ∧
    parse_frontmatter Y.load ("---\n" ++ yt ++ "\n---\n" ++ body) =
      (injectedFrontmatter fm se forked_at forked_by, body) ∧
    alGet (injectedFrontmatter fm se forked_at forked_by) "name" =
      alGet fm "name" ∧
    (∃ md, alGet (injectedFrontmatter fm se forked_at forked_by) "metadata" =
        some (.dict md) ∧
      alGet md "fork" = some (.dict (forkRecord se forked_at forked_by))) ∧
    (∀ k, k ≠ "metadata" →
      alGet (injectedFrontmatter fm se forked_at forked_by) k = alGet fm k) ∧
    ((injectedFrontmatter fm se forked_at forked_by).map Prod.fst).filter
        (fun k => decide (k ≠ "metadata")) =
      (fm.map Prod.fst).filter (fun k => decide (k ≠ "metadata")) := by
  refine ⟨?_, ?_, ?_, ?_, ?_, ?_⟩
  · simp only [inject_fork_metadata, hparse]
    rw [if_neg (by simp [hne])]
    rw [← hyt]
  · simp only [parse_frontmatter, frontmatterMatch_rebuilt yt body hclean,
      string_mk_toList, hload]
  · exact alGet_alSet_ne _ _ _ _ (by decide)
  · refine ⟨alSet (match alGet fm "metadata" with
      | some (.dict m) => m
      | _ => []) "fork" (.dict (forkRecord se forked_at forked_by)), ?_, ?_⟩
    · exact alGet_alSet_self _ _ _
    · exact alGet_alSet_self _ _ _
  · intro k hk
    exact alGet_alSet_ne _ _ _ _ hk
  · exact keys_filter_alSet _ _ _

/-- The injected frontmatter of the round-trip witness. -/
def injectedC7 : YDict :=
  injectedFrontmatter [("name", YVal.str "foo")] entryDemo "t" "u"

/-- YAML collaborator for the round-trip witness: it loads the original
header text and the dumped injected header, and dumps to the fixed text
`INJ`. -/
def yC7 : YamlEnv :=
  { load := fun s =>
      if s = "name: foo" then some (.dict [("name", YVal.str "foo")])
      else if s = "INJ" then some (.dict injectedC7)
      else none,
    dump := fun _ => "INJ" }

/-- C7 witness: the round-trip at a concrete destination file whose header
is `name: foo`, with a collaborator whose dump/load round-trips. -/
theorem inject_roundtrip_witness :
    inject_fork_metadata yC7 "t" "u" ["d", "SKILL.md"]
        "---\nname: foo\n---\nbody" entryDemo =
      .ok ("---\n" ++ "INJ" ++ "\n---\n" ++ "body") ∧
    parse_frontmatter yC7.load ("---\n" ++ "INJ" ++ "\n---\n" ++ "body") =
      (injectedC7, "body") ∧
    alGet injectedC7 "name" = alGet [("name", YVal.str "foo")] "name" ∧
    (∃ md, alGet injectedC7 "metadata" = some (.dict md) ∧
      alGet md "fork" = some (.dict (forkRecord entryDemo "t" "u"))) ∧
    (∀ k, k ≠ "metadata" →
      alGet injectedC7 k = alGet [("name", YVal.str "foo")] k) ∧
    (injectedC7.map Prod.fst).filter (fun k => decide (k ≠ "metadata")) =
      ([("name", YVal.str "foo")].map Prod.fst).filter
        (fun k => decide (k ≠ "metadata")) :=
  inject_roundtrip yC7 "t" "u" ["d", "SKILL.md"] "---\nname: foo\n---\nbody"
    entryDemo [("name", YVal.str "foo")] "body" "INJ" rfl rfl rfl (by decide) rfl

/-! ## C9: exception propagation out of `main` -/

/-- `resolve_explicit_source` raises a non-`RuntimeError` only from the
`read_text` of the located `SKILL.md`. -/
theorem resolve_explicit_source_ioError (fs : FS) (yload : YamlLoad)
    (n : String) (p q : FsPath)
    (h : resolve_explicit_source fs yload n p = .error (.ioError q)) :
    q = (if fs.isDir p then p ++ ["SKILL.md"] else p) := by
  simp only [resolve_explicit_source] at h
  split at h
  · next hd =>
      rw [if_pos hd]
      split at h
      · simp at h
      · split at h
        · simp at h
        · split at h
          · simp at h
            exact h.symm
          · split at h <;> simp at h
  · next hd =>
      rw [if_neg hd]
      split at h
      · simp at h
      · split at h
        · simp at h
        · split at h
          · simp at h
            exact h.symm
          · split at h <;> simp at h

/-- `forkVerifyTail` always returns normally. -/
theorem forkVerifyTail_ne_uncaught (w : World) (skill_name : String)
    (dest : FsPath) (effs0 : List Effect) (e : PyExn) (effs : List Effect) :
    forkVerifyTail w skill_name dest effs0 ≠ .uncaught e effs := by
  simp only [forkVerifyTail]
  split
  · simp
  · split <;> simp

/-- C9 (amended): every failure of the destination try-block copy, the
metadata injection, or the validation is caught and reported as a terminal
outcome with a return code; the only exceptions that escape `main` uncaught
are a failure of the self-overwrite staging step (`mkdtemp`/`copytree`,
which sit outside every `try`) and a non-`RuntimeError` I/O failure reading
an explicit source file. -/
theorem fork_main_uncaught_characterization (w : World) (e : PyExn)
    (effs : List Effect) (h : fork_main w = .uncaught e effs) :
    (∃ p, w.args.source_path = some p ∧
      e = .ioError (if w.fs.isDir p then p ++ ["SKILL.md"] else p) ∧
      effs = []) ∨
    (w.args.force = true ∧ w.stage_copy_ok = false ∧
      e = .ioError (w.staging_dir ++ ["source"]) ∧
      effs = [.mkStagingDir w.staging_dir]) := by
  simp only [fork_main] at h
  split at h
  · simp at h
  · split at h
    · simp at h
    · next e0 hner heq =>
        cases e0 with
        | runtimeError msg => exact (hner msg rfl).elim
        | ioError q =>
            left
            cases hsp : w.args.source_path with
            | none =>
                simp only [mainSourceRes, hsp] at heq
                split at heq <;> simp at heq
            | some p =>
                simp only [mainSourceRes, hsp] at heq
                have hq := resolve_explicit_source_ioError w.fs w.Y.load
                  (pyStrip w.args.skill_name) p q heq
                simp only [MainResult.uncaught.injEq] at h
                refine ⟨p, rfl, ?_, h.2.symm⟩
                rw [← h.1, hq]
    · next source_entry heq =>
        split at h
        · simp at h
        · split at h
          · simp at h
          · simp only [forkCopyTail] at h
            split at h
            · next hcond =>
                right
                simp only [MainResult.uncaught.injEq] at h
                refine ⟨hcond.1.1, by simpa using hcond.2, h.1.symm, ?_⟩
                rw [← h.2, if_pos hcond.1]
            · exfalso
              split at h
              · simp at h
              · split at h
                · simp at h
                · split at h
                  · simp at h
                  · split at h
                    · simp at h
                    · exact absurd h
                        (forkVerifyTail_ne_uncaught _ _ _ _ _ _)

/-- Filesystem for the self-overwrite witness: the source skill already
lives at the destination `/t/skills/packs/foo`. -/
def fsC9 : FS :=
  { isDir := fun p => decide (p = ["t", "skills", "packs", "foo"] ∨
      p = ["t", "skills", "packs"]),
    isFile := fun p => decide (p = ["t", "skills", "packs", "foo", "SKILL.md"]),
    pathExists := fun p => decide (p = ["t", "skills", "packs", "foo"]),
    iterdir := fun _ => [],
    rglobSkillMdSorted := fun _ => [],
    readFile := fun p =>
      if p = ["t", "skills", "packs", "foo", "SKILL.md"] then
        some "---\nname: foo\n---\nbody" else none }

/-- World for the C9 counterexample: forced self-overwrite fork of `foo`
whose staging copy fails. -/
def worldC9 : World :=
  { args := { skill_name := "foo",
              source_path := some ["t", "skills", "packs", "foo"],
              target_path := some ["t", "skills"], tier := none, force := true,
              dry_run := false, no_metadata := true, allow_inactive := true },
    env := envDemo, fs := fsC9, fsPost := fsC9,
    Y := { load := yloadDemo, dump := fun _ => "" }, V := demoValidator,
    packs := [], configured_roots := [], disabled := [],
    staging_dir := ["tmp", "stage"], stage_copy_ok := false, copy_step := .ok (),
    dest_md_exists := true, dest_md_content := none,
    forked_at := "2026-01-01T00:00:00Z", forked_by := "u" }

/-- C9 counterexample: with `--force` and source equal to destination, a
failing staging `copytree` (line 542, outside every `try`) escapes `main`
as an uncaught exception, so not every internal failure is caught. -/
theorem staging_copy_failure_uncaught :
    fork_main worldC9 =
      .uncaught (.ioError ["tmp", "stage", "source"])
        [.mkStagingDir ["tmp", "stage"]] := by
  rfl

/-- C9 witness: the uncaught-exception characterisation applied at the
concrete self-overwrite world; the escape is the staging-copy failure. -/
theorem fork_main_uncaught_characterization_witness :
    (∃ p, worldC9.args.source_path = some p ∧
      PyExn.ioError ["tmp", "stage", "source"] =
        .ioError (if worldC9.fs.isDir p then p ++ ["SKILL.md"] else p) ∧
      ([Effect.mkStagingDir ["tmp", "stage"]] : List Effect) = []) ∨
    (worldC9.args.force = true ∧ worldC9.stage_copy_ok = false ∧
      PyExn.ioError ["tmp", "stage", "source"] =
        .ioError (worldC9.staging_dir ++ ["source"]) ∧
      ([Effect.mkStagingDir ["tmp", "stage"]] : List Effect) =
        [.mkStagingDir worldC9.staging_dir]) :=
  fork_main_uncaught_characterization worldC9
    (.ioError ["tmp", "stage", "source"]) [.mkStagingDir ["tmp", "stage"]] rfl

/-! ## C8: post-fork verification -/

/-- Case-split form of `forkVerifyTail`. -/
theorem forkVerifyTail_eq (w : World) (skill_name : String) (dest : FsPath)
    (effs : List Effect) :
    forkVerifyTail w skill_name dest effs =
      (match alGet (w.disabled.foldl alPop
          (load_registry w.fsPost w.Y.load
            (discover_skill_roots w.fsPost w.env w.configured_roots) w.packs).1)
          skill_name with
       | some e =>
           if e.base_dir = dest then MainResult.normal 0 .activeConfirmed effs
           else if ¬ w.args.allow_inactive then
             MainResult.normal 2 .inactiveFatal effs
           else MainResult.normal 0 .inactiveAllowed effs
       | none =>
           if ¬ w.args.allow_inactive then MainResult.normal 2 .inactiveFatal effs
           else MainResult.normal 0 .inactiveAllowed effs) := by
  simp only [forkVerifyTail]
  cases hA : alGet (w.disabled.foldl alPop
      (load_registry w.fsPost w.Y.load
        (discover_skill_roots w.fsPost w.env w.configured_roots) w.packs).1)
      skill_name with
  | none => simp
  | some e => by_cases hb : e.base_dir = dest <;> simp [hb]

/-- `forkVerifyTail` when the post-pop lookup misses. -/
theorem forkVerifyTail_eq_none (w : World) (skill_name : String) (dest : FsPath)
    (effs : List Effect)
    (hA : alGet (w.disabled.foldl alPop
        (load_registry w.fsPost w.Y.load
          (discover_skill_roots w.fsPost w.env w.configured_roots) w.packs).1)
        skill_name = none) :
    forkVerifyTail w skill_name dest effs =
      if ¬ w.args.allow_inactive then MainResult.normal 2 .inactiveFatal effs
      else MainResult.normal 0 .inactiveAllowed effs := by
  rw [forkVerifyTail_eq, hA]

/-- `forkVerifyTail` when the post-pop lookup finds an effective entry. -/
theorem forkVerifyTail_eq_some (w : World) (skill_name : String) (dest : FsPath)
    (effs : List Effect) (e : SkillEntry)
    (hA : alGet (w.disabled.foldl alPop
        (load_registry w.fsPost w.Y.load
          (discover_skill_roots w.fsPost w.env w.configured_roots) w.packs).1)
        skill_name = some e) :
    forkVerifyTail w skill_name dest effs =
      if e.base_dir = dest then MainResult.normal 0 .activeConfirmed effs
      else if ¬ w.args.allow_inactive then MainResult.normal 2 .inactiveFatal effs
      else MainResult.normal 0 .inactiveAllowed effs := by
  rw [forkVerifyTail_eq, hA]

/-- C8: the post-fork verification looks the forked name up in a registry
rebuilt by fresh Root Discovery on the post-fork filesystem with every
disabled name removed first; the fork is reported active exactly when the
effective entry exists and its content directory equals the destination; a
disabled forked name is never reported active; and the only outcomes are
active (exit 0), inactive-fatal (exit 2, only when inactivity was not
allowed), and inactive-allowed (exit 0). -/
theorem post_fork_verification (w : World) (skill_name : String)
    (dest : FsPath) (effs : List Effect) :
    (∀ n ∈ w.disabled,
      alGet (w.disabled.foldl alPop
        (load_registry w.fsPost w.Y.load
          (discover_skill_roots w.fsPost w.env w.configured_roots) w.packs).1)
        n = none) ∧
    (forkVerifyTail w skill_name dest effs =
        .normal 0 .activeConfirmed effs ↔
      (∃ e, alGet (w.disabled.foldl alPop
          (load_registry w.fsPost w.Y.load
            (discover_skill_roots w.fsPost w.env w.configured_roots) w.packs).1)
          skill_name = some e ∧ e.base_dir = dest)) ∧
    (skill_name ∈ w.disabled →
      forkVerifyTail w skill_name dest effs ≠
        .normal 0 .activeConfirmed effs) ∧
    (forkVerifyTail w skill_name dest effs = .normal 0 .activeConfirmed effs ∨
     (¬ w.args.allow_inactive ∧
       forkVerifyTail w skill_name dest effs = .normal 2 .inactiveFatal effs) ∨
     (w.args.allow_inactive ∧
       forkVerifyTail w skill_name dest effs =
         .normal 0 .inactiveAllowed effs)) := by
  refine ⟨?_, ?_, ?_, ?_⟩
  · intro n hn
    exact alGet_foldl_alPop_mem _ _ _ hn
  · cases hA : alGet (w.disabled.foldl alPop
        (load_registry w.fsPost w.Y.load
          (discover_skill_roots w.fsPost w.env w.configured_roots) w.packs).1)
        skill_name with
    | none =>
        rw [forkVerifyTail_eq_none w skill_name dest effs hA]
        constructor
        · intro h
          split at h <;> simp at h
        · rintro ⟨e, he, _⟩
          cases he
    | some e =>
        rw [forkVerifyTail_eq_some w skill_name dest effs e hA]
        by_cases hb : e.base_dir = dest
        · rw [if_pos hb]
          constructor
          · intro _
            exact ⟨e, rfl, hb⟩
          · intro _
            rfl
        · rw [if_neg hb]
          constructor
          · intro hcon
            split at hcon <;> simp at hcon
          · rintro ⟨e2, he2, hb2⟩
            cases he2
            exact absurd hb2 hb
  · intro hmem hcon
    rw [forkVerifyTail_eq_none w skill_name dest effs
      (alGet_foldl_alPop_mem _ _ _ hmem)] at hcon
    split at hcon <;> simp at hcon
  · cases hA : alGet (w.disabled.foldl alPop
        (load_registry w.fsPost w.Y.load
          (discover_skill_roots w.fsPost w.env w.configured_roots) w.packs).1)
        skill_name with
    | none =>
        rw [forkVerifyTail_eq_none w skill_name dest effs hA]
        by_cases ha : w.args.allow_inactive = true
        · right; right
          exact ⟨ha, by simp [ha]⟩
        · right; left
          exact ⟨ha, by simp [ha]⟩
    | some e =>
        rw [forkVerifyTail_eq_some w skill_name dest effs e hA]
        by_cases hb : e.base_dir = dest
        · left
          rw [if_pos hb]
        · rw [if_neg hb]
          by_cases ha : w.args.allow_inactive = true
          · right; right
            exact ⟨ha, by simp [ha]⟩
          · right; left
            exact ⟨ha, by simp [ha]⟩

/-- Discovery environment for the verification witness: the global brewva
root is the skill tree `/r` of `fsC1`. -/
def envC8 : DiscoverEnv :=
  { module_dir := ["m"], exec_dir := ["e"], global_brewva_root := ["r"],
    project_brewva_root := ["p", ".brewva"] }

/-- World for the verification witness: the post-fork filesystem still
defines `foo`, but `foo` is in the disabled set. -/
def worldC8 : World :=
  { args := { skill_name := "foo", source_path := none, target_path := none,
              tier := none, force := false, dry_run := false,
              no_metadata := true, allow_inactive := false },
    env := envC8, fs := fsC1, fsPost := fsC1,
    Y := { load := yloadDemo, dump := fun _ => "" }, V := demoValidator,
    packs := [], configured_roots := [], disabled := ["foo"],
    staging_dir := ["tmp", "stage"], stage_copy_ok := true, copy_step := .ok (),
    dest_md_exists := true, dest_md_content := none,
    forked_at := "2026-01-01T00:00:00Z", forked_by := "u" }

/-- C8 witness: in `worldC8` the disabled name `foo` is removed from the
fresh registry before the lookup, and the fork is therefore not reported
active. -/
theorem post_fork_verification_witness :
    alGet (worldC8.disabled.foldl alPop
      (load_registry worldC8.fsPost worldC8.Y.load
        (discover_skill_roots worldC8.fsPost worldC8.env worldC8.configured_roots)
        worldC8.packs).1) "foo" = none ∧
    forkVerifyTail worldC8 "foo" ["r", "project", "foo"] [] ≠
      .normal 0 .activeConfirmed [] :=
  ⟨(post_fork_verification worldC8 "foo" ["r", "project", "foo"] []).1 "foo"
      (by decide),
   (post_fork_verification worldC8 "foo" ["r", "project", "foo"] []).2.2.1
      (by decide)⟩

end Brewva
